import Mathlib

/-!
# Shallow embedding of the FreeRDP server-peer core

This development embeds, in Lean, the parts of the FreeRDP repository that
the verified properties talk about:

* `libfreerdp/core/peer.c` — the server peer driver: virtual-channel chunked
  write, the TPKT / fast-path demultiplexer, the share-data PDU dispatch,
  the finalization / ACTIVE portion of the connection state machine, and
  `freerdp_peer_close`.
* `winpr/libwinpr/pipe/pipe.c` — the reference-counted registry of shared
  named-pipe server sockets.

Pure computations are translated directly; calls into translation units that
are not part of the four-file sample (stream parsing, crypto, the MCS layer,
the transport) are represented by oracle parameters recording only the
result the callee reports, so each embedded function is a function of its
explicit inputs.  Wire output is modelled as a trace of emitted messages.
-/

namespace FreeRDP

/-! ## Outcome codes

The handler outcome type `state_run_t`.  The numeric encoding follows the
repository conventions visible in `peer.c`: failures are negative
(`rdp_peer_handle_state_active` is documented as returning `-1 in case of an
error, 0 if no data needs to be processed, 1 to let the state machine run
again and 2 if peer_recv_pdu must be called`), `state_run_success` means
non-negative, `state_run_failed` means negative, and the comparison
`ret >= STATE_RUN_ACTIVE` in the `CONNECTION_STATE_ACTIVE` case of
`peer_recv_callback_internal` singles out `STATE_RUN_ACTIVE` as the largest
code a state handler produces. -/

abbrev state_run_t := Int

def STATE_RUN_QUIT_SESSION : state_run_t := -2

def STATE_RUN_FAILED : state_run_t := -1

def STATE_RUN_SUCCESS : state_run_t := 0

def STATE_RUN_CONTINUE : state_run_t := 1

def STATE_RUN_TRY_AGAIN : state_run_t := 2

def STATE_RUN_ACTIVE : state_run_t := 3

def state_run_failed (s : state_run_t) : Bool := s < STATE_RUN_SUCCESS

def state_run_success (s : state_run_t) : Bool := s ≥ STATE_RUN_SUCCESS

def state_run_continue (s : state_run_t) : Bool :=
  s = STATE_RUN_CONTINUE ∨ s = STATE_RUN_TRY_AGAIN

/-! ## Virtual-channel chunked write (`freerdp_peer_virtual_channel_write`)

`peer.c` lines 130–205.  The channel flags are the MS-RDPBCGR channel PDU
header flags (`CHANNEL_FLAG_FIRST = 0x01`, `CHANNEL_FLAG_LAST = 0x02`,
`CHANNEL_FLAG_SHOW_PROTOCOL = 0x10`). -/

def CHANNEL_FLAG_FIRST : Nat := 0x01

def CHANNEL_FLAG_LAST : Nat := 0x02

def CHANNEL_FLAG_SHOW_PROTOCOL : Nat := 0x10

/-- One virtual-channel chunk as written to the wire: the channel PDU header
(`totalLength`, `flags`) followed by `chunkSize` payload bytes. -/
structure VCChunk where
  totalLength : Nat
  flags : Nat
  chunkSize : Nat
deriving Repr, DecidableEq

/-- The body of the `while (length > 0)` loop of
`freerdp_peer_virtual_channel_write`.  `sendOk i` is the oracle for the
result of `rdp_send` (and `rdp_send_stream_init`) for the `i`-th chunk;
chunks that were handed to `rdp_send` successfully are accumulated as the
wire trace.  `fuel` bounds the number of iterations; the C loop does not
terminate when `VCChunkSize = 0` and bytes remain, which the model renders
as `none`.  On a send failure the function aborts with result `-1`, exactly
as the C code returns `-1` from inside the loop. -/
def vcWriteLoop (showProtocol : Bool) (sendOk : Nat → Bool) (maxChunkSize totalLength : Nat) :
    Nat → Nat → Nat → Nat → Option (List VCChunk × Int)
  | remaining, flags, idx, fuel =>
    if remaining = 0 then
      some ([], 1)
    else
      match fuel with
      | 0 => none
      | fuel' + 1 =>
        let chunkSize := if remaining > maxChunkSize then maxChunkSize else remaining
        let flags₁ := if remaining > maxChunkSize then flags else flags ||| CHANNEL_FLAG_LAST
        let flags₂ := if showProtocol then flags₁ ||| CHANNEL_FLAG_SHOW_PROTOCOL else flags₁
        if sendOk idx then
          match vcWriteLoop showProtocol sendOk maxChunkSize totalLength
              (remaining - chunkSize) 0 (idx + 1) fuel' with
          | none => none
          | some (rest, r) => some (⟨totalLength, flags₂, chunkSize⟩ :: rest, r)
        else
          some ([], -1)

/-- `freerdp_peer_virtual_channel_write` (`peer.c` lines 130–205).
`hChannel` is `true` when a non-null channel handle was passed, `dynamic`
is the `WTS_CHANNEL_OPTION_DYNAMIC` bit of the peer channel's flags,
`showProtocol` is the `CHANNEL_OPTION_SHOW_PROTOCOL` bit of the MCS
channel's options.  Returns the chunks that reached the wire paired with
the C return value (`1` success, `-1` error); `none` models the
non-terminating `VCChunkSize = 0` loop. -/
def freerdp_peer_virtual_channel_write (hChannel : Bool) (dynamic : Bool)
    (showProtocol : Bool) (sendOk : Nat → Bool) (maxChunkSize length : Nat) :
    Option (List VCChunk × Int) :=
  if ¬hChannel then some ([], -1)
  else if dynamic then some ([], -1)
  else vcWriteLoop showProtocol sendOk maxChunkSize length length CHANNEL_FLAG_FIRST 0 length

/-! ## Connection states

`CONNECTION_STATE`, in the server's linear order (spec §4.1 and the
`switch` of `peer_recv_callback_internal`); the client-side finalization
states exist only to be rejected by the server driver. -/

inductive CONNECTION_STATE where
  | INITIAL
  | NEGO
  | NLA
  | MCS_CREATE_REQUEST
  | MCS_ERECT_DOMAIN
  | MCS_ATTACH_USER
  | MCS_CHANNEL_JOIN_REQUEST
  | RDP_SECURITY_COMMENCEMENT
  | SECURE_SETTINGS_EXCHANGE
  | CONNECT_TIME_AUTO_DETECT_REQUEST
  | CONNECT_TIME_AUTO_DETECT_RESPONSE
  | LICENSING
  | MULTITRANSPORT_BOOTSTRAPPING_REQUEST
  | MULTITRANSPORT_BOOTSTRAPPING_RESPONSE
  | CAPABILITIES_EXCHANGE_DEMAND_ACTIVE
  | CAPABILITIES_EXCHANGE_MONITOR_LAYOUT
  | CAPABILITIES_EXCHANGE_CONFIRM_ACTIVE
  | FINALIZATION_SYNC
  | FINALIZATION_COOPERATE
  | FINALIZATION_REQUEST_CONTROL
  | FINALIZATION_PERSISTENT_KEY_LIST
  | FINALIZATION_FONT_LIST
  | ACTIVE
  | FINALIZATION_CLIENT_SYNC
  | FINALIZATION_CLIENT_COOPERATE
  | FINALIZATION_CLIENT_GRANTED_CONTROL
  | FINALIZATION_CLIENT_FONT_MAP
deriving DecidableEq, Repr

/-- Position of a connection state in the linear order; used only for the
`rdp_get_state(rdp) <= CONNECTION_STATE_LICENSING` comparison in
`peer_recv_tpkt_pdu`. -/
def connStateIdx : CONNECTION_STATE → Nat
  | .INITIAL => 0
  | .NEGO => 1
  | .NLA => 2
  | .MCS_CREATE_REQUEST => 3
  | .MCS_ERECT_DOMAIN => 4
  | .MCS_ATTACH_USER => 5
  | .MCS_CHANNEL_JOIN_REQUEST => 6
  | .RDP_SECURITY_COMMENCEMENT => 7
  | .SECURE_SETTINGS_EXCHANGE => 8
  | .CONNECT_TIME_AUTO_DETECT_REQUEST => 9
  | .CONNECT_TIME_AUTO_DETECT_RESPONSE => 10
  | .LICENSING => 11
  | .MULTITRANSPORT_BOOTSTRAPPING_REQUEST => 12
  | .MULTITRANSPORT_BOOTSTRAPPING_RESPONSE => 13
  | .CAPABILITIES_EXCHANGE_DEMAND_ACTIVE => 14
  | .CAPABILITIES_EXCHANGE_MONITOR_LAYOUT => 15
  | .CAPABILITIES_EXCHANGE_CONFIRM_ACTIVE => 16
  | .FINALIZATION_SYNC => 17
  | .FINALIZATION_COOPERATE => 18
  | .FINALIZATION_REQUEST_CONTROL => 19
  | .FINALIZATION_PERSISTENT_KEY_LIST => 20
  | .FINALIZATION_FONT_LIST => 21
  | .ACTIVE => 22
  | .FINALIZATION_CLIENT_SYNC => 23
  | .FINALIZATION_CLIENT_COOPERATE => 24
  | .FINALIZATION_CLIENT_GRANTED_CONTROL => 25
  | .FINALIZATION_CLIENT_FONT_MAP => 26

/-! ## Wire messages and PDU type constants -/

/-- Reason code of an MCS disconnect-provider-ultimatum. -/
inductive DisconnectReason where
  | providerInitiated
  | userRequested
deriving DecidableEq, Repr

/-- A message the peer sends on the wire (only the messages the claims talk
about are distinguished). -/
inductive WireMsg where
  | mcsDisconnectProviderUltimatum (reason : DisconnectReason)
  | deactivateAll
  | errorInfo
  | controlGranted
deriving DecidableEq, Repr

/-- Share-control PDU types (MS-RDPBCGR 2.2.8.1.1.1.1). -/
def PDU_TYPE_CONFIRM_ACTIVE : Nat := 0x3

def PDU_TYPE_DATA : Nat := 0x7

def PDU_TYPE_FLOW_TEST : Nat := 0x41

def PDU_TYPE_FLOW_RESPONSE : Nat := 0x42

def PDU_TYPE_FLOW_STOP : Nat := 0x43

/-- Share-data PDU types (MS-RDPBCGR 2.2.8.1.1.1.2, `pduType2`). -/
def DATA_PDU_TYPE_CONTROL : Nat := 0x14

def DATA_PDU_TYPE_INPUT : Nat := 0x1C

def DATA_PDU_TYPE_SYNCHRONIZE : Nat := 0x1F

def DATA_PDU_TYPE_REFRESH_RECT : Nat := 0x21

def DATA_PDU_TYPE_SUPPRESS_OUTPUT : Nat := 0x23

def DATA_PDU_TYPE_SHUTDOWN_REQUEST : Nat := 0x24

def DATA_PDU_TYPE_FONT_LIST : Nat := 0x27

def DATA_PDU_TYPE_BITMAP_CACHE_PERSISTENT_LIST : Nat := 0x2B

def DATA_PDU_TYPE_FRAME_ACKNOWLEDGE : Nat := 0x38

def MCS_GLOBAL_CHANNEL_ID : Nat := 1003

/-! ## Share-data PDU dispatch (`peer_recv_data_pdu`, `peer.c` 339–431) -/

/-- Oracle results for the parsing subroutines `peer_recv_data_pdu` calls
into other translation units; `dataType` is the `type` byte read from the
share-data header. -/
structure DataPduEnv where
  readShareDataHeaderOk : Bool
  dataType : Nat
  synchronizeOk : Bool
  controlOk : Bool
  inputOk : Bool
  persistentKeyListOk : Bool
  fontListOk : Bool
  frameAckStreamHasLength : Bool
  frameAckId : Nat
  refreshRectOk : Bool
  suppressOutputOk : Bool
deriving Repr

/-- `peer_recv_data_pdu`: returns the outcome, the wire messages sent, and
the new `ack_frame_id` when a FRAME_ACKNOWLEDGE PDU updated it.  The
`default` branch of the C switch logs the unknown type and falls through to
`return STATE_RUN_SUCCESS`. -/
def peer_recv_data_pdu (e : DataPduEnv) : state_run_t × List WireMsg × Option Nat :=
  if ¬e.readShareDataHeaderOk then (STATE_RUN_FAILED, [], none)
  else if e.dataType = DATA_PDU_TYPE_SYNCHRONIZE then
    (if e.synchronizeOk then STATE_RUN_SUCCESS else STATE_RUN_FAILED, [], none)
  else if e.dataType = DATA_PDU_TYPE_CONTROL then
    (if e.controlOk then STATE_RUN_SUCCESS else STATE_RUN_FAILED, [], none)
  else if e.dataType = DATA_PDU_TYPE_INPUT then
    (if e.inputOk then STATE_RUN_SUCCESS else STATE_RUN_FAILED, [], none)
  else if e.dataType = DATA_PDU_TYPE_BITMAP_CACHE_PERSISTENT_LIST then
    (if e.persistentKeyListOk then STATE_RUN_SUCCESS else STATE_RUN_FAILED, [], none)
  else if e.dataType = DATA_PDU_TYPE_FONT_LIST then
    (if e.fontListOk then STATE_RUN_CONTINUE else STATE_RUN_FAILED, [], none)
  else if e.dataType = DATA_PDU_TYPE_SHUTDOWN_REQUEST then
    (STATE_RUN_QUIT_SESSION,
      [WireMsg.mcsDisconnectProviderUltimatum DisconnectReason.providerInitiated], none)
  else if e.dataType = DATA_PDU_TYPE_FRAME_ACKNOWLEDGE then
    if ¬e.frameAckStreamHasLength then (STATE_RUN_FAILED, [], none)
    else (STATE_RUN_SUCCESS, [], some e.frameAckId)
  else if e.dataType = DATA_PDU_TYPE_REFRESH_RECT then
    (if e.refreshRectOk then STATE_RUN_SUCCESS else STATE_RUN_FAILED, [], none)
  else if e.dataType = DATA_PDU_TYPE_SUPPRESS_OUTPUT then
    (if e.suppressOutputOk then STATE_RUN_SUCCESS else STATE_RUN_FAILED, [], none)
  else (STATE_RUN_SUCCESS, [], none)

/-! ## TPKT slow path (`peer_recv_tpkt_pdu`, `peer.c` 433–526) -/

/-- Oracle results for the subroutines `peer_recv_tpkt_pdu` calls:
header parsing, the disconnect check, decryption, the share-control
header, and the per-channel handlers living in other translation units. -/
structure TpktEnv where
  readHeaderOk : Bool
  shallDisconnect : Bool
  rdpState : CONNECTION_STATE
  handleMessageChannelResult : state_run_t
  decryptOk : Bool
  channelId : Nat
  messageChannelId : Nat
  readShareControlOk : Bool
  pduType : Nat
  confirmActiveOk : Bool
  safeSeekOk : Bool
  useRdpSecurityLayer : Bool
  readSecurityHeaderOk : Bool
  msgChannelPduResult : state_run_t
  channelPeerProcessOk : Bool
  streamConsumedOk : Bool
deriving Repr

/-- `peer_recv_tpkt_pdu`.  The trailing `tpkt_ensure_stream_consumed`
check applies to every branch except the message-channel branch, which
returns directly, exactly as in the C control flow. -/
def peer_recv_tpkt_pdu (e : TpktEnv) (d : DataPduEnv) : state_run_t × List WireMsg :=
  if ¬e.readHeaderOk then (STATE_RUN_FAILED, [])
  else if e.shallDisconnect then (STATE_RUN_SUCCESS, [])
  else if connStateIdx e.rdpState ≤ connStateIdx CONNECTION_STATE.LICENSING then
    (e.handleMessageChannelResult, [])
  else if ¬e.decryptOk then (STATE_RUN_FAILED, [])
  else if e.channelId = MCS_GLOBAL_CHANNEL_ID then
    if ¬e.readShareControlOk then (STATE_RUN_FAILED, [])
    else if e.pduType = PDU_TYPE_DATA then
      let (rc, msgs, _) := peer_recv_data_pdu d
      if ¬e.streamConsumedOk then (STATE_RUN_FAILED, msgs) else (rc, msgs)
    else if e.pduType = PDU_TYPE_CONFIRM_ACTIVE then
      if ¬e.confirmActiveOk then (STATE_RUN_FAILED, [])
      else if ¬e.streamConsumedOk then (STATE_RUN_FAILED, [])
      else (STATE_RUN_SUCCESS, [])
    else if e.pduType = PDU_TYPE_FLOW_RESPONSE ∨ e.pduType = PDU_TYPE_FLOW_STOP ∨
        e.pduType = PDU_TYPE_FLOW_TEST then
      if ¬e.safeSeekOk then (STATE_RUN_FAILED, [])
      else if ¬e.streamConsumedOk then (STATE_RUN_FAILED, [])
      else (STATE_RUN_SUCCESS, [])
    else (STATE_RUN_FAILED, [])
  else if 0 < e.messageChannelId ∧ e.channelId = e.messageChannelId then
    if ¬e.useRdpSecurityLayer ∧ ¬e.readSecurityHeaderOk then (STATE_RUN_FAILED, [])
    else (e.msgChannelPduResult, [])
  else
    if ¬e.channelPeerProcessOk then (STATE_RUN_FAILED, [])
    else if ¬e.streamConsumedOk then (STATE_RUN_FAILED, [])
    else (STATE_RUN_SUCCESS, [])

/-! ## Fast path (`peer_recv_fastpath_pdu`, `peer.c` 655–688) and the
demultiplexer (`peer_recv_pdu`, `peer.c` 690–700) -/

/-- Oracle results for `fastpath_read_header_rdp`, the stream length check,
`fastpath_decrypt` and `fastpath_recv_inputs`. -/
structure FastpathEnv where
  readHeaderOk : Bool
  headerLength : Nat
  streamRemaining : Nat
  decryptOk : Bool
  recvInputsResult : state_run_t
deriving Repr

/-- `peer_recv_fastpath_pdu`: header parse failure, a zero length, a short
stream, or decryption failure yield `STATE_RUN_FAILED`; otherwise the
result is whatever `fastpath_recv_inputs` reports.  Note that the function
never consults the connection state. -/
def peer_recv_fastpath_pdu (f : FastpathEnv) : state_run_t :=
  if ¬f.readHeaderOk ∨ f.headerLength = 0 then STATE_RUN_FAILED
  else if f.streamRemaining < f.headerLength then STATE_RUN_FAILED
  else if ¬f.decryptOk then STATE_RUN_FAILED
  else f.recvInputsResult

/-- `peer_recv_pdu`: `tpktRc` is the result of `tpkt_verify_header`
(positive: valid TPKT prefix, zero: not a TPKT prefix, negative: error).
The third component records whether the PDU was routed to the fast-path
receiver. -/
def peer_recv_pdu (tpktRc : Int) (e : TpktEnv) (d : DataPduEnv) (f : FastpathEnv) :
    state_run_t × List WireMsg × Bool :=
  if tpktRc > 0 then
    let (rc, msgs) := peer_recv_tpkt_pdu e d
    (rc, msgs, false)
  else if tpktRc = 0 then
    (peer_recv_fastpath_pdu f, [], true)
  else (STATE_RUN_FAILED, [], false)

/-- A TPKT environment whose connection state is `FINALIZATION_SYNC`, a
state other than ACTIVE. -/
def c2Tpkt : TpktEnv :=
  ⟨true, false, CONNECTION_STATE.FINALIZATION_SYNC, STATE_RUN_SUCCESS, true,
    MCS_GLOBAL_CHANNEL_ID, 0, true, PDU_TYPE_DATA, true, true, false, true,
    STATE_RUN_SUCCESS, true, true⟩

/-- A fast-path PDU that parses and decrypts fine and whose input events
are accepted. -/
def c2Fastpath : FastpathEnv := ⟨true, 4, 8, true, STATE_RUN_SUCCESS⟩

/-- A share-data environment (irrelevant to the fast-path route). -/
def c2Data : DataPduEnv := ⟨true, 0x1F, true, true, true, true, true, true, 0, true, true⟩

/-! ## Peer state and the finalization / ACTIVE driver portion

`peer_recv_callback_internal` (`peer.c` 788–1156) dispatches on the
connection state.  The embedding below covers the portion the verified
claims are about — the states from CAPABILITIES_EXCHANGE_CONFIRM_ACTIVE
through ACTIVE, plus MULTITRANSPORT_BOOTSTRAPPING_RESPONSE — whose
behaviour is fully determined inside `peer.c` given the results of the
called subroutines. -/

/-- Application callbacks invoked during a driver step, in order. -/
inductive AppCall where
  | postConnect
  | activate
deriving DecidableEq, Repr

/-- The `freerdp_peer` fields the claims are about: `connected`
(PostConnect done) and `activated` (capability exchange done). -/
structure Client where
  connected : Bool
  activated : Bool
deriving DecidableEq, Repr

/-- The finalization flag bitset of the rdp core (`rdp_finalize_is_flag_set`),
one field per `FINALIZE_*` bit used in `peer.c`. -/
structure FinalizeFlags where
  synchronize : Bool
  controlCooperate : Bool
  controlRequest : Bool
  persistentKeyList : Bool
  fontList : Bool
  deactivateReactivate : Bool
deriving DecidableEq, Repr

/-- The settings fields read by the embedded driver portion. -/
structure PeerSettings where
  BitmapCachePersistEnabled : Bool
  SupportErrorInfoPdu : Bool
deriving DecidableEq, Repr

/-- The rdp-core state visible to the embedded driver portion. -/
structure Rdp where
  state : CONNECTION_STATE
  finalize : FinalizeFlags
  settings : PeerSettings
deriving DecidableEq, Repr

/-- Finalization flag identifiers (MS-RDPBCGR finalization PDUs), used
only as the log argument of `peer_unexpected_client_message`. -/
def FINALIZE_CS_SYNCHRONIZE_PDU : Nat := 0x01

def FINALIZE_CS_CONTROL_COOPERATE_PDU : Nat := 0x02

def FINALIZE_CS_CONTROL_REQUEST_PDU : Nat := 0x04

def FINALIZE_CS_PERSISTENT_KEY_LIST_PDU : Nat := 0x08

def FINALIZE_CS_FONT_LIST_PDU : Nat := 0x10

/-- `peer_unexpected_client_message` (`peer.c` 702–708): logs a warning
naming the missing flag and returns `STATE_RUN_SUCCESS` — the unexpected
message is tolerated. -/
def peer_unexpected_client_message (_rdp : Rdp) (_flag : Nat) : state_run_t :=
  STATE_RUN_SUCCESS

/-- Modelled from the spec: `rdp_server_transition_to_state` lives in
`rdp.c`, which is not part of the sample; per spec §4.1 it moves the
connection to the given state and reports success or failure.  `transOk`
is the success oracle. -/
def rdp_server_transition_to_state (transOk : CONNECTION_STATE → Bool) (rdp : Rdp)
    (st : CONNECTION_STATE) : Option Rdp :=
  if transOk st then some { rdp with state := st } else none

/-- `rdp_peer_handle_state_active` (`peer.c` 745–786).  The callbacks get
the current client and return the (possibly mutated) client plus their
Boolean result; `IFCALLRET` stores the result into `connected`
(PostConnect) or into the local `activated` (Activate).  Returns the
updated client, the outcome, and the callbacks invoked. -/
def rdp_peer_handle_state_active (postConnectCb activateCb : Option (Client → Client × Bool))
    (c : Client) : Client × state_run_t × List AppCall :=
  let step₁ :=
    if ¬c.connected then
      match postConnectCb with
      | some cb =>
        let (c', r) := cb c
        ({ c' with connected := r }, [AppCall.postConnect])
      | none => (c, ([] : List AppCall))
    else (c, ([] : List AppCall))
  let c₁ := step₁.1
  let calls₁ := step₁.2
  if ¬c₁.connected then (c₁, STATE_RUN_FAILED, calls₁)
  else if ¬c₁.activated then
    let c₂ := { c₁ with activated := true }
    match activateCb with
    | some cb =>
      let (c₃, activated) := cb c₂
      if ¬activated then (c₃, STATE_RUN_FAILED, calls₁ ++ [AppCall.activate])
      else (c₃, STATE_RUN_SUCCESS, calls₁ ++ [AppCall.activate])
    | none => (c₂, STATE_RUN_SUCCESS, calls₁)
  else (c₁, STATE_RUN_ACTIVE, calls₁)

/-- One driver step's observable outcome. -/
structure StepResult where
  rdp : Rdp
  client : Client
  ret : state_run_t
  consumedPdu : Bool
  appCalls : List AppCall
  msgs : List WireMsg
deriving Repr

/-- The CAPABILITIES_EXCHANGE_CONFIRM_ACTIVE … ACTIVE portion of
`peer_recv_callback_internal` (`peer.c` 978–1143).  `recvPdu` abstracts
the effect of `peer_recv_pdu` on the rdp state (the finalize flags are set
by `rdp_recv_*` handlers in other translation units), `transOk` abstracts
`rdp_server_transition_to_state` success, `sendControlGrantedOk` abstracts
`rdp_send_server_control_granted_pdu`.  `consumedPdu` records whether
`peer_recv_pdu` was invoked.  States outside this portion are not
modelled. -/
def peer_recv_callback_fin_active (recvPdu : Rdp → Rdp × state_run_t)
    (transOk : CONNECTION_STATE → Bool) (sendControlGrantedOk : Bool)
    (postConnectCb activateCb : Option (Client → Client × Bool))
    (rdp : Rdp) (client : Client) : Option StepResult :=
  match rdp.state with
  | .MULTITRANSPORT_BOOTSTRAPPING_RESPONSE =>
    let (rdp₁, r) := recvPdu rdp
    some ⟨rdp₁, client, r, true, [], []⟩
  | .CAPABILITIES_EXCHANGE_CONFIRM_ACTIVE =>
    let (rdp₁, r) := recvPdu rdp
    some ⟨rdp₁, client, r, true, [], []⟩
  | .FINALIZATION_SYNC =>
    let (rdp₁, r) := recvPdu rdp
    if rdp₁.finalize.synchronize then
      match rdp_server_transition_to_state transOk rdp₁ .FINALIZATION_COOPERATE with
      | some rdp₂ => some ⟨rdp₂, client, r, true, [], []⟩
      | none => some ⟨rdp₁, client, STATE_RUN_FAILED, true, [], []⟩
    else
      some ⟨rdp₁, client,
        peer_unexpected_client_message rdp₁ FINALIZE_CS_SYNCHRONIZE_PDU, true, [], []⟩
  | .FINALIZATION_COOPERATE =>
    let (rdp₁, r) := recvPdu rdp
    if rdp₁.finalize.controlCooperate then
      match rdp_server_transition_to_state transOk rdp₁ .FINALIZATION_REQUEST_CONTROL with
      | some rdp₂ => some ⟨rdp₂, client, r, true, [], []⟩
      | none => some ⟨rdp₁, client, STATE_RUN_FAILED, true, [], []⟩
    else
      some ⟨rdp₁, client,
        peer_unexpected_client_message rdp₁ FINALIZE_CS_CONTROL_COOPERATE_PDU, true, [], []⟩
  | .FINALIZATION_REQUEST_CONTROL =>
    let (rdp₁, r) := recvPdu rdp
    if rdp₁.finalize.controlRequest then
      if ¬sendControlGrantedOk then
        some ⟨rdp₁, client, STATE_RUN_FAILED, true, [], []⟩
      else
        match rdp_server_transition_to_state transOk rdp₁ .FINALIZATION_PERSISTENT_KEY_LIST with
        | some rdp₂ => some ⟨rdp₂, client, r, true, [], [WireMsg.controlGranted]⟩
        | none => some ⟨rdp₁, client, STATE_RUN_FAILED, true, [], [WireMsg.controlGranted]⟩
    else
      some ⟨rdp₁, client,
        peer_unexpected_client_message rdp₁ FINALIZE_CS_CONTROL_REQUEST_PDU, true, [], []⟩
  | .FINALIZATION_PERSISTENT_KEY_LIST =>
    if rdp.settings.BitmapCachePersistEnabled ∧ ¬rdp.finalize.deactivateReactivate then
      let (rdp₁, r) := recvPdu rdp
      if rdp₁.finalize.persistentKeyList then
        match rdp_server_transition_to_state transOk rdp₁ .FINALIZATION_FONT_LIST with
        | some rdp₂ => some ⟨rdp₂, client, r, true, [], []⟩
        | none => some ⟨rdp₁, client, STATE_RUN_FAILED, true, [], []⟩
      else
        -- peer.c line 1109 passes the state constant, not the flag bit, to
        -- the log-only argument of peer_unexpected_client_message
        some ⟨rdp₁, client,
          peer_unexpected_client_message rdp₁
            (connStateIdx CONNECTION_STATE.FINALIZATION_FONT_LIST), true, [], []⟩
    else
      match rdp_server_transition_to_state transOk rdp .FINALIZATION_FONT_LIST with
      | some rdp₂ => some ⟨rdp₂, client, STATE_RUN_CONTINUE, false, [], []⟩
      | none => some ⟨rdp, client, STATE_RUN_FAILED, false, [], []⟩
  | .FINALIZATION_FONT_LIST =>
    let (rdp₁, r) := recvPdu rdp
    if state_run_success r then
      if rdp₁.finalize.fontList then
        match rdp_server_transition_to_state transOk rdp₁ .ACTIVE with
        | some rdp₂ => some ⟨rdp₂, client, STATE_RUN_CONTINUE, true, [], []⟩
        | none => some ⟨rdp₁, client, STATE_RUN_FAILED, true, [], []⟩
      else
        some ⟨rdp₁, client,
          peer_unexpected_client_message rdp₁ FINALIZE_CS_FONT_LIST_PDU, true, [], []⟩
    else some ⟨rdp₁, client, r, true, [], []⟩
  | .ACTIVE =>
    let res := rdp_peer_handle_state_active postConnectCb activateCb client
    if res.2.1 ≥ STATE_RUN_ACTIVE then
      let (rdp₁, r') := recvPdu rdp
      some ⟨rdp₁, res.1, r', true, res.2.2, []⟩
    else some ⟨rdp, res.1, res.2.1, false, res.2.2, []⟩
  | _ => none

/-- The finalization flag `peer_recv_callback_internal` expects in each of
the five finalization states. -/
def expectedFinalizeFlag : CONNECTION_STATE → Option (FinalizeFlags → Bool)
  | .FINALIZATION_SYNC => some (fun fl => fl.synchronize)
  | .FINALIZATION_COOPERATE => some (fun fl => fl.controlCooperate)
  | .FINALIZATION_REQUEST_CONTROL => some (fun fl => fl.controlRequest)
  | .FINALIZATION_PERSISTENT_KEY_LIST => some (fun fl => fl.persistentKeyList)
  | .FINALIZATION_FONT_LIST => some (fun fl => fl.fontList)
  | _ => none

/-! ## Peer close (`freerdp_peer_close`, `peer.c` 1191–1226) -/

/-- Security protocol flag: negotiation failure marker (nego.h). -/
def PROTOCOL_FAILED_NEGO : Nat := 0x80000000

/-- `freerdp_peer_close`: if the negotiated protocol carries
`PROTOCOL_FAILED_NEGO`, return `TRUE` silently.  Otherwise send
Deactivate-All (failure aborts with `FALSE`), then an error-info PDU iff
`SupportErrorInfoPdu`, then the MCS disconnect-provider-ultimatum with
reason provider-initiated, whose result is returned.  The message list
records the attempted sends in order. -/
def freerdp_peer_close (selectedProtocol : Nat) (supportErrorInfoPdu : Bool)
    (deactivateAllOk : Bool) (ultimatumOk : Bool) : Bool × List WireMsg :=
  if selectedProtocol &&& PROTOCOL_FAILED_NEGO ≠ 0 then (true, [])
  else if ¬deactivateAllOk then (false, [WireMsg.deactivateAll])
  else
    (ultimatumOk,
      [WireMsg.deactivateAll]
        ++ (if supportErrorInfoPdu then [WireMsg.errorInfo] else [])
        ++ [WireMsg.mcsDisconnectProviderUltimatum DisconnectReason.providerInitiated])

/-! ## Named-pipe server-socket registry (`winpr/libwinpr/pipe/pipe.c`)

The global array `g_NamedPipeServerSockets` holds one reference-counted
entry `{name, serverfd, references}` per pipe name; `CreateNamedPipeA`
(lines 563–730) reuses or creates the base socket and hands each instance
a `dup()` of it; `winpr_unref_named_pipe` (523–561) and
`NamedPipeCloseHandle` (221–248) tear an instance down.  File descriptors
are modelled by a monotone counter `nextFd` (each `socket()`/`dup()`
returns a fresh descriptor) and the set `openFds` of descriptors the
process currently holds open; the success path is modelled (allocation,
socket, bind and listen failures abort creation without touching the
registry). -/

structure NamedPipeServerSocketEntry where
  name : String
  serverfd : Nat
  references : Nat
deriving DecidableEq, Repr

/-- A live server-mode named-pipe instance: its name and its `dup()`ed
per-instance descriptor. -/
structure WINPR_NAMED_PIPE where
  name : String
  serverfd : Nat
deriving DecidableEq, Repr

/-- Process state: the registry, the live instances, the open
descriptors, and the fresh-descriptor counter. -/
structure PipeSys where
  registry : List NamedPipeServerSocketEntry
  pipes : List WINPR_NAMED_PIPE
  openFds : List Nat
  nextFd : Nat
deriving DecidableEq, Repr

def initPipeSys : PipeSys := ⟨[], [], [], 0⟩

/-- Allocate a fresh descriptor (`socket()` or `dup()`). -/
def allocFd (s : PipeSys) : Nat × PipeSys :=
  (s.nextFd, ⟨s.registry, s.pipes, s.nextFd :: s.openFds, s.nextFd + 1⟩)

/-- `baseSocket->references++` on the entry with the given name. -/
def bumpRef (name : String) (reg : List NamedPipeServerSocketEntry) :
    List NamedPipeServerSocketEntry :=
  reg.map (fun e => if e.name == name then ⟨e.name, e.serverfd, e.references + 1⟩ else e)

/-- `CreateNamedPipeA`, success path: look the name up in the registry;
on a hit reuse the base socket, otherwise create it, append a zero-count
entry; in both cases `dup()` the base descriptor for the instance and
increment the entry's references. -/
def CreateNamedPipeA (s : PipeSys) (name : String) : PipeSys × WINPR_NAMED_PIPE :=
  match s.registry.find? (fun e => e.name == name) with
  | some _ =>
    let (fd, s₁) := allocFd s
    let p : WINPR_NAMED_PIPE := ⟨name, fd⟩
    (⟨bumpRef name s₁.registry, p :: s₁.pipes, s₁.openFds, s₁.nextFd⟩, p)
  | none =>
    let (base, s₁) := allocFd s
    let s₂ : PipeSys := ⟨s₁.registry ++ [⟨name, base, 0⟩], s₁.pipes, s₁.openFds, s₁.nextFd⟩
    let (fd, s₃) := allocFd s₂
    let p : WINPR_NAMED_PIPE := ⟨name, fd⟩
    (⟨bumpRef name s₃.registry, p :: s₃.pipes, s₃.openFds, s₃.nextFd⟩, p)

/-- `winpr_unref_named_pipe`: find the entry with the pipe's name;
decrement its references; at zero remove the entry and `close()` the base
descriptor. -/
def winpr_unref_named_pipe (s : PipeSys) (name : String) : PipeSys :=
  match s.registry.find? (fun e => e.name == name) with
  | none => s
  | some e =>
    if e.references - 1 = 0 then
      ⟨s.registry.filter (fun x => ¬x.name == name), s.pipes,
        s.openFds.erase e.serverfd, s.nextFd⟩
    else
      ⟨s.registry.map (fun x =>
          if x.name == name then ⟨x.name, x.serverfd, x.references - 1⟩ else x),
        s.pipes, s.openFds, s.nextFd⟩

/-- `NamedPipeCloseHandle` on a live server-mode instance: unref the
shared base socket, then `close()` the instance's own descriptor and free
the handle.  Closing a handle that is not live is undefined behaviour in
C and a no-op here. -/
def NamedPipeCloseHandle (s : PipeSys) (p : WINPR_NAMED_PIPE) : PipeSys :=
  if p ∈ s.pipes then
    let s₁ := winpr_unref_named_pipe s p.name
    ⟨s₁.registry, s₁.pipes.erase p, s₁.openFds.erase p.serverfd, s₁.nextFd⟩
  else s

/-- The interleavings the registry sees: create an instance or close a
live one. -/
inductive PipeOp where
  | create (name : String)
  | closeHandle (p : WINPR_NAMED_PIPE)
deriving DecidableEq, Repr

def runPipeOps : List PipeOp → PipeSys → PipeSys
  | [], s => s
  | PipeOp.create name :: ops, s => runPipeOps ops (CreateNamedPipeA s name).1
  | PipeOp.closeHandle p :: ops, s => runPipeOps ops (NamedPipeCloseHandle s p)

/-- Number of live instances for a pipe name. -/
def countName (name : String) (l : List WINPR_NAMED_PIPE) : Nat :=
  (l.filter (fun p => p.name == name)).length

/-- Descriptors owned by the registry and the live instances. -/
def sysFds (s : PipeSys) : List Nat :=
  s.registry.map (fun e => e.serverfd) ++ s.pipes.map (fun p => p.serverfd)

/-- The registry invariant: names are unique, every entry counts exactly
the live instances of its name and is positive, every live instance has
an entry, and the descriptors of entries and instances are pairwise
distinct, open, and below the allocation counter. -/
structure PipeInv (s : PipeSys) : Prop where
  namesNodup : s.registry.Pairwise (fun a b => a.name ≠ b.name)
  refsPos : ∀ e ∈ s.registry, 0 < e.references
  refsCount : ∀ e ∈ s.registry, e.references = countName e.name s.pipes
  liveEntry : ∀ p ∈ s.pipes, ∃ e ∈ s.registry, e.name = p.name
  fdsNodup : (sysFds s).Nodup
  fdsOpen : ∀ fd ∈ sysFds s, fd ∈ s.openFds
  openNodup : s.openFds.Nodup
  openLt : ∀ fd ∈ s.openFds, fd < s.nextFd

/-- Unfolding equation: no bytes remain, the loop exits with success. -/
theorem vcWriteLoop_zero (showProt : Bool) (sendOk : Nat → Bool) (C tot f idx fuel : Nat) :
    vcWriteLoop showProt sendOk C tot 0 f idx fuel = some ([], 1) := by
  rw [vcWriteLoop.eq_def]
  simp

/-- Unfolding equation: the remaining bytes fit into one chunk, which gets
`CHANNEL_FLAG_LAST`; afterwards no bytes remain. -/
theorem vcWriteLoop_last (showProt : Bool) (sendOk : Nat → Bool) (C tot f idx rem fuel : Nat)
    (h0 : 0 < rem) (hrC : ¬rem > C) (hs : sendOk idx = true) :
    vcWriteLoop showProt sendOk C tot rem f idx (fuel + 1) =
      some ([⟨tot,
        (if showProt then (f ||| CHANNEL_FLAG_LAST) ||| CHANNEL_FLAG_SHOW_PROTOCOL
         else f ||| CHANNEL_FLAG_LAST), rem⟩], 1) := by
  rw [vcWriteLoop.eq_def]
  simp only [if_neg (by omega : ¬rem = 0), if_neg hrC, hs, if_pos]
  have hz : rem - rem = 0 := by omega
  rw [hz, vcWriteLoop_zero]

/-- Unfolding equation: more bytes remain than fit into one chunk; a full
`C`-byte chunk is sent and the loop recurses with cleared flags. -/
theorem vcWriteLoop_step (showProt : Bool) (sendOk : Nat → Bool) (C tot f idx rem fuel : Nat)
    (h0 : 0 < rem) (hrC : rem > C) (hs : sendOk idx = true) :
    vcWriteLoop showProt sendOk C tot rem f idx (fuel + 1) =
      (match vcWriteLoop showProt sendOk C tot (rem - C) 0 (idx + 1) fuel with
       | none => none
       | some (rest, r) =>
         some (⟨tot, (if showProt then f ||| CHANNEL_FLAG_SHOW_PROTOCOL else f), C⟩ :: rest, r)) := by
  rw [vcWriteLoop.eq_def]
  simp only [if_neg (by omega : ¬rem = 0), if_pos hrC, hs, if_pos]

/-- Unfolding equation: the attempt to send the current chunk fails; the
loop aborts with `-1`. -/
theorem vcWriteLoop_sendfail (showProt : Bool) (sendOk : Nat → Bool) (C tot f idx rem fuel : Nat)
    (h0 : 0 < rem) (hs : sendOk idx = false) :
    vcWriteLoop showProt sendOk C tot rem f idx (fuel + 1) = some ([], -1) := by
  rw [vcWriteLoop.eq_def]
  simp only [if_neg (by omega : ¬rem = 0), hs]
  simp

/-- Success-path characterization of the chunking loop: with every send
succeeding, `0 < remaining ≤ fuel` and a positive chunk size, the loop
returns `⌈remaining / C⌉` chunks carrying `totalLength` in every header,
with the configured flag discipline. -/
theorem vcWriteLoop_all_sends_ok (showProt : Bool) (C tot : Nat) (hC : 0 < C) :
    ∀ (fuel rem f idx : Nat), 0 < rem → rem ≤ fuel →
    (f = 0 ∨ f = CHANNEL_FLAG_FIRST) →
    ∃ chunks : List VCChunk,
      vcWriteLoop showProt (fun _ => true) C tot rem f idx fuel = some (chunks, 1) ∧
      chunks.length = (rem + C - 1) / C ∧
      (∀ ch ∈ chunks, ch.totalLength = tot) ∧
      chunks.head? = some ⟨tot,
        (if showProt then
          (if rem > C then f else f ||| CHANNEL_FLAG_LAST) ||| CHANNEL_FLAG_SHOW_PROTOCOL
         else (if rem > C then f else f ||| CHANNEL_FLAG_LAST)),
        if rem > C then C else rem⟩ ∧
      (∃ lc, chunks.getLast? = some lc ∧ lc.flags &&& CHANNEL_FLAG_LAST ≠ 0) ∧
      (f = 0 → ∀ ch ∈ chunks, ch.flags &&& CHANNEL_FLAG_FIRST = 0) ∧
      (∀ ch ∈ chunks.tail, ch.flags &&& CHANNEL_FLAG_FIRST = 0) := by
  intro fuel
  induction fuel with
  | zero => intro rem f idx h0 hle _; omega
  | succ fuel ih =>
    intro rem f idx h0 hle hf
    by_cases hrC : rem > C
    · -- more than one chunk remains: emit a C-sized chunk and recurse
      have h0' : 0 < rem - C := by omega
      have hle' : rem - C ≤ fuel := by omega
      obtain ⟨rest, heq, hlen, htot, hhead, ⟨lc, hlast, hlcf⟩, hall0, htail⟩ :=
        ih (rem - C) 0 (idx + 1) h0' hle' (Or.inl rfl)
      rw [vcWriteLoop_step showProt _ C tot f idx rem fuel h0 hrC rfl, heq]
      refine ⟨⟨tot, (if showProt then f ||| CHANNEL_FLAG_SHOW_PROTOCOL else f), C⟩ :: rest,
        rfl, ?_, ?_, ?_, ?_, ?_, ?_⟩
      · simp only [List.length_cons, hlen]
        have h1 : rem - C + C - 1 = rem - 1 := by omega
        rw [h1]
        have h2 : rem + C - 1 = rem - 1 + C := by omega
        rw [h2, Nat.add_div_right _ hC]
      · intro ch hch
        rcases List.mem_cons.mp hch with h | h
        · subst h; rfl
        · exact htot ch h
      · simp [if_pos hrC]
      · refine ⟨lc, ?_, hlcf⟩
        have hne : rest ≠ [] := by
          intro h; rw [h] at hhead; simp at hhead
        rcases rest with _ | ⟨r, rs⟩
        · exact absurd rfl hne
        · simpa using hlast
      · intro hf0 ch hch
        rcases List.mem_cons.mp hch with h | h
        · subst h hf0
          cases showProt <;>
            simp [CHANNEL_FLAG_SHOW_PROTOCOL, CHANNEL_FLAG_FIRST]
        · exact hall0 rfl ch h
      · simpa using hall0 rfl
    · -- final chunk: remaining fits in one chunk, LAST is set
      rw [vcWriteLoop_last showProt _ C tot f idx rem fuel h0 hrC rfl]
      refine ⟨[⟨tot,
        (if showProt then (f ||| CHANNEL_FLAG_LAST) ||| CHANNEL_FLAG_SHOW_PROTOCOL
         else f ||| CHANNEL_FLAG_LAST), rem⟩], rfl, ?_, ?_, ?_, ?_, ?_, ?_⟩
      · simp only [List.length_singleton]
        symm
        apply Nat.div_eq_of_lt_le <;> omega
      · simp
      · simp [if_neg hrC]
      · refine ⟨_, rfl, ?_⟩
        rcases hf with rfl | rfl <;> cases showProt <;>
          simp [CHANNEL_FLAG_SHOW_PROTOCOL, CHANNEL_FLAG_FIRST, CHANNEL_FLAG_LAST]
      · intro hf0
        subst hf0
        intro ch hch
        simp only [List.mem_singleton] at hch
        subst hch
        cases showProt <;>
          simp [CHANNEL_FLAG_SHOW_PROTOCOL, CHANNEL_FLAG_FIRST, CHANNEL_FLAG_LAST]
      · simp

/-- Abort-path characterization: if the first `j` sends succeed and send
`j` fails while at least `j + 1` chunks are still owed, the loop returns
`-1` with exactly the `j` already-sent chunks on the wire. -/
theorem vcWriteLoop_abort (showProt : Bool) (sendOk : Nat → Bool) (C tot : Nat) (hC : 0 < C) :
    ∀ (fuel rem f idx j : Nat), 0 < rem → rem ≤ fuel →
    j < (rem + C - 1) / C →
    (∀ i, i < j → sendOk (idx + i) = true) → sendOk (idx + j) = false →
    ∃ chunks : List VCChunk,
      vcWriteLoop showProt sendOk C tot rem f idx fuel = some (chunks, -1) ∧
      chunks.length = j := by
  intro fuel
  induction fuel with
  | zero => intro rem f idx j h0 hle _ _ _; omega
  | succ fuel ih =>
    intro rem f idx j h0 hle hj hok hfail
    rcases Nat.eq_zero_or_pos j with rfl | hjpos
    · -- the very first send fails
      rw [Nat.add_zero] at hfail
      exact ⟨[], vcWriteLoop_sendfail showProt sendOk C tot f idx rem fuel h0 hfail, rfl⟩
    · -- the first send succeeds; the failure happens deeper in the loop
      have hsend0 : sendOk idx = true := by
        have := hok 0 hjpos
        simpa using this
      have hrC : rem > C := by
        by_contra hnot
        have : (rem + C - 1) / C = 1 := by
          apply Nat.div_eq_of_lt_le <;> omega
        omega
      have h0' : 0 < rem - C := by omega
      have hle' : rem - C ≤ fuel := by omega
      have hj' : j - 1 < (rem - C + C - 1) / C := by
        have h1 : rem - C + C - 1 = rem - 1 := by omega
        have h2 : rem + C - 1 = rem - 1 + C := by omega
        rw [h2, Nat.add_div_right _ hC] at hj
        rw [h1]; omega
      have hok' : ∀ i, i < j - 1 → sendOk (idx + 1 + i) = true := by
        intro i hi
        have := hok (i + 1) (by omega)
        simpa [Nat.add_assoc, Nat.add_comm 1 i] using this
      have hfail' : sendOk (idx + 1 + (j - 1)) = false := by
        have : idx + 1 + (j - 1) = idx + j := by omega
        rw [this]; exact hfail
      obtain ⟨rest, heq, hlen⟩ := ih (rem - C) 0 (idx + 1) (j - 1) h0' hle' hj' hok' hfail'
      rw [vcWriteLoop_step showProt sendOk C tot f idx rem fuel h0 hrC hsend0, heq]
      refine ⟨⟨tot, (if showProt then f ||| CHANNEL_FLAG_SHOW_PROTOCOL else f), C⟩ :: rest,
        rfl, ?_⟩
      simp only [List.length_cons, hlen]; omega

/-- C1: a virtual-channel write of `N > 0` bytes on an open non-dynamic
channel with chunk size `C` emits exactly `⌈N / C⌉` wire chunks; the first
chunk carries `CHANNEL_FLAG_FIRST`, the last carries `CHANNEL_FLAG_LAST`,
some chunk carries both iff `N ≤ C`, every chunk header carries
`totalLength = N`; and if sending any chunk fails the call aborts and
returns `-1`, having emitted only the chunks sent before the failure. -/
theorem c1_virtual_channel_write_chunking (C N : Nat) (showProt : Bool)
    (hC : 0 < C) (hN : 0 < N) :
    (∃ chunks : List VCChunk,
      freerdp_peer_virtual_channel_write true false showProt (fun _ => true) C N
        = some (chunks, 1) ∧
      chunks.length = (N + C - 1) / C ∧
      (∀ ch ∈ chunks, ch.totalLength = N) ∧
      (∃ c₀ t, chunks = c₀ :: t ∧ c₀.flags &&& CHANNEL_FLAG_FIRST ≠ 0) ∧
      (∃ lc, chunks.getLast? = some lc ∧ lc.flags &&& CHANNEL_FLAG_LAST ≠ 0) ∧
      ((∃ ch ∈ chunks, ch.flags &&& CHANNEL_FLAG_FIRST ≠ 0 ∧
          ch.flags &&& CHANNEL_FLAG_LAST ≠ 0) ↔ N ≤ C)) ∧
    (∀ (sendOk : Nat → Bool) (j : Nat), j < (N + C - 1) / C →
      (∀ i, i < j → sendOk i = true) → sendOk j = false →
      ∃ chunks : List VCChunk,
        freerdp_peer_virtual_channel_write true false showProt sendOk C N
          = some (chunks, -1) ∧ chunks.length = j) := by
  constructor
  · obtain ⟨chunks, heq, hlen, htot, hhead, hlast, -, htail⟩ :=
      vcWriteLoop_all_sends_ok showProt C N hC N N CHANNEL_FLAG_FIRST 0 hN le_rfl (Or.inr rfl)
    obtain ⟨c₀, t, rfl⟩ : ∃ c₀ t, chunks = c₀ :: t := by
      rcases chunks with _ | ⟨c, cs⟩
      · simp at hhead
      · exact ⟨c, cs, rfl⟩
    simp only [List.head?_cons, Option.some.injEq] at hhead
    refine ⟨c₀ :: t, heq, hlen, htot, ⟨c₀, t, rfl, ?_⟩, hlast, ?_⟩
    · subst hhead
      by_cases hNC : N > C <;> cases showProt <;>
        simp [hNC, CHANNEL_FLAG_FIRST, CHANNEL_FLAG_LAST,
          CHANNEL_FLAG_SHOW_PROTOCOL]
    · constructor
      · rintro ⟨ch, hmem, hfirst, hlastf⟩
        by_contra hNC
        have hNC' : N > C := by omega
        rcases List.mem_cons.mp hmem with rfl | hmemt
        · subst hhead
          cases showProt <;>
            (simp [hNC', CHANNEL_FLAG_FIRST, CHANNEL_FLAG_LAST,
              CHANNEL_FLAG_SHOW_PROTOCOL] at hlastf
             all_goals exact hlastf (by decide))
        · exact hfirst (htail ch (by simpa using hmemt))
      · intro hNC
        refine ⟨c₀, List.mem_cons_self _ _, ?_⟩
        subst hhead
        have hNC' : ¬N > C := by omega
        cases showProt <;>
          simp [hNC', CHANNEL_FLAG_FIRST, CHANNEL_FLAG_LAST,
            CHANNEL_FLAG_SHOW_PROTOCOL]
  · intro sendOk j hj hok hfail
    have hok' : ∀ i, i < j → sendOk (0 + i) = true := by
      intro i hi; simpa using hok i hi
    have hfail' : sendOk (0 + j) = false := by simpa using hfail
    obtain ⟨chunks, heq, hlen⟩ :=
      vcWriteLoop_abort showProt sendOk C N hC N N CHANNEL_FLAG_FIRST 0 j hN le_rfl hj
        hok' hfail'
    exact ⟨chunks, heq, hlen⟩

/-- Non-vacuity of `c1_virtual_channel_write_chunking`: a 5-byte write with
chunk size 2 yields three chunks. -/
theorem c1_virtual_channel_write_chunking_witness :
    ∃ chunks : List VCChunk,
      freerdp_peer_virtual_channel_write true false false (fun _ => true) 2 5
        = some (chunks, 1) ∧ chunks.length = 3 := by
  obtain ⟨⟨chunks, h1, h2, -⟩, -⟩ :=
    c1_virtual_channel_write_chunking 2 5 false (by decide) (by decide)
  exact ⟨chunks, h1, by simpa using h2⟩

/-- C9: a virtual-channel write of length 0 on a valid open non-dynamic
channel emits no chunks at all (in particular none carrying `FIRST` or
`LAST`) and returns 1 (success). -/
theorem c9_virtual_channel_write_zero_length (showProt : Bool) (sendOk : Nat → Bool) (C : Nat) :
    freerdp_peer_virtual_channel_write true false showProt sendOk C 0 = some ([], 1) := by
  simp only [freerdp_peer_virtual_channel_write]
  simp [vcWriteLoop_zero]

/-- C6: a share-data PDU of type SHUTDOWN_REQUEST makes the server send an
MCS disconnect-provider-ultimatum with reason provider-initiated, and the
handler returns `STATE_RUN_QUIT_SESSION` (graceful tear-down, not an
error). -/
theorem c6_shutdown_request_quits_session (e : DataPduEnv)
    (hok : e.readShareDataHeaderOk = true)
    (ht : e.dataType = DATA_PDU_TYPE_SHUTDOWN_REQUEST) :
    peer_recv_data_pdu e = (STATE_RUN_QUIT_SESSION,
      [WireMsg.mcsDisconnectProviderUltimatum DisconnectReason.providerInitiated], none) := by
  simp only [peer_recv_data_pdu, hok, ht]
  simp [DATA_PDU_TYPE_SHUTDOWN_REQUEST, DATA_PDU_TYPE_SYNCHRONIZE, DATA_PDU_TYPE_CONTROL,
    DATA_PDU_TYPE_INPUT, DATA_PDU_TYPE_BITMAP_CACHE_PERSISTENT_LIST, DATA_PDU_TYPE_FONT_LIST]

/-- Non-vacuity of `c6_shutdown_request_quits_session` at a concrete
environment. -/
theorem c6_shutdown_request_quits_session_witness :
    peer_recv_data_pdu ⟨true, 0x24, true, true, true, true, true, true, 0, true, true⟩
      = (STATE_RUN_QUIT_SESSION,
        [WireMsg.mcsDisconnectProviderUltimatum DisconnectReason.providerInitiated], none) :=
  c6_shutdown_request_quits_session ⟨true, 0x24, true, true, true, true, true, true, 0, true, true⟩
    rfl rfl

/-- C10: a share-data PDU whose data type is outside the dispatch set
{SYNCHRONIZE, CONTROL, INPUT, PERSISTENT_KEY_LIST, FONT_LIST,
SHUTDOWN_REQUEST, FRAME_ACKNOWLEDGE, REFRESH_RECT, SUPPRESS_OUTPUT} is
ignored: `peer_recv_data_pdu` returns `STATE_RUN_SUCCESS`, sends nothing,
and does not close the connection. -/
theorem c10_unknown_data_pdu_ignored (e : DataPduEnv)
    (hok : e.readShareDataHeaderOk = true)
    (hnot : e.dataType ∉ [DATA_PDU_TYPE_SYNCHRONIZE, DATA_PDU_TYPE_CONTROL,
      DATA_PDU_TYPE_INPUT, DATA_PDU_TYPE_BITMAP_CACHE_PERSISTENT_LIST,
      DATA_PDU_TYPE_FONT_LIST, DATA_PDU_TYPE_SHUTDOWN_REQUEST,
      DATA_PDU_TYPE_FRAME_ACKNOWLEDGE, DATA_PDU_TYPE_REFRESH_RECT,
      DATA_PDU_TYPE_SUPPRESS_OUTPUT]) :
    peer_recv_data_pdu e = (STATE_RUN_SUCCESS, [], none) := by
  simp only [List.mem_cons, List.mem_singleton, not_or] at hnot
  obtain ⟨h1, h2, h3, h4, h5, h6, h7, h8, h9, -⟩ := hnot
  simp [peer_recv_data_pdu, hok, h1, h2, h3, h4, h5, h6, h7, h8, h9]

/-- Non-vacuity of `c10_unknown_data_pdu_ignored`: data type `0x2F`
(SET_ERROR_INFO, never sent by a client) is ignored. -/
theorem c10_unknown_data_pdu_ignored_witness :
    peer_recv_data_pdu ⟨true, 0x2F, true, true, true, true, true, true, 0, true, true⟩
      = (STATE_RUN_SUCCESS, [], none) :=
  c10_unknown_data_pdu_ignored ⟨true, 0x2F, true, true, true, true, true, true, 0, true, true⟩
    rfl (by decide)

/-- C2 fails on the code: in connection state `FINALIZATION_SYNC` (not
ACTIVE), a PDU whose framing is not a TPKT prefix is still dispatched to
the fast-path receiver (third component `true`) and the outcome is
`STATE_RUN_SUCCESS`, not `STATE_RUN_FAILED`: `peer_recv_pdu` never
consults the connection state on the fast-path route. -/
theorem c2_counterexample :
    c2Tpkt.rdpState ≠ CONNECTION_STATE.ACTIVE ∧
    peer_recv_pdu 0 c2Tpkt c2Data c2Fastpath = (STATE_RUN_SUCCESS, [], true) := by
  constructor
  · decide
  · rfl

/-- C2 amended: a PDU whose framing header is not a valid TPKT prefix
(`tpkt_verify_header` result 0) is dispatched to the fast-path receiver in
every connection state in which `peer_recv_pdu` runs, with the fast-path
receiver's result as outcome; a negative `tpkt_verify_header` result is
`STATE_RUN_FAILED`; and the fast-path receiver itself fails exactly on a
bad header, zero length, short stream, or failed decryption. -/
theorem c2_fastpath_dispatch_ignores_state (tpktRc : Int) (e : TpktEnv) (d : DataPduEnv)
    (f : FastpathEnv) :
    (tpktRc = 0 → peer_recv_pdu tpktRc e d f = (peer_recv_fastpath_pdu f, [], true)) ∧
    (tpktRc < 0 → peer_recv_pdu tpktRc e d f = (STATE_RUN_FAILED, [], false)) ∧
    ((¬f.readHeaderOk ∨ f.headerLength = 0 ∨ f.streamRemaining < f.headerLength ∨
        ¬f.decryptOk) → peer_recv_fastpath_pdu f = STATE_RUN_FAILED) ∧
    (f.readHeaderOk → f.headerLength ≠ 0 → ¬f.streamRemaining < f.headerLength →
      f.decryptOk → peer_recv_fastpath_pdu f = f.recvInputsResult) := by
  refine ⟨?_, ?_, ?_, ?_⟩
  · intro h
    subst h
    simp [peer_recv_pdu]
  · intro h
    have h1 : ¬tpktRc > 0 := by omega
    have h2 : ¬tpktRc = 0 := by omega
    simp [peer_recv_pdu, h1, h2]
  · intro h
    rcases h with h | h | h | h <;>
      simp [peer_recv_fastpath_pdu, h]
  · intro h1 h2 h3 h4
    simp [peer_recv_fastpath_pdu, h1, h2, h3, h4]

/-- Non-vacuity of `c2_fastpath_dispatch_ignores_state` at concrete
inputs. -/
theorem c2_fastpath_dispatch_ignores_state_witness :
    peer_recv_pdu 0 c2Tpkt c2Data ⟨false, 4, 8, true, STATE_RUN_SUCCESS⟩
        = (peer_recv_fastpath_pdu ⟨false, 4, 8, true, STATE_RUN_SUCCESS⟩, [], true) ∧
    peer_recv_fastpath_pdu ⟨false, 4, 8, true, STATE_RUN_SUCCESS⟩ = STATE_RUN_FAILED := by
  obtain ⟨ha, -, hc, -⟩ :=
    c2_fastpath_dispatch_ignores_state 0 c2Tpkt c2Data ⟨false, 4, 8, true, STATE_RUN_SUCCESS⟩
  exact ⟨ha rfl, hc (Or.inl (by decide))⟩

/-- C3: in every finalization state (SYNC, COOPERATE, REQUEST_CONTROL,
PERSISTENT_KEY_LIST, FONT_LIST), when the received PDU is processed
successfully but the expected finalization flag is not set afterwards, the
driver logs a warning and returns `STATE_RUN_SUCCESS` — it neither fails
nor transitions: the returned rdp state is exactly what the PDU handler
produced, no callback runs and nothing is sent.  (For
PERSISTENT_KEY_LIST this concerns the receiving path, i.e.
`BitmapCachePersistEnabled` set and no reactivation in progress.) -/
theorem c3_missing_finalize_flag_tolerated (recvPdu : Rdp → Rdp × state_run_t)
    (transOk : CONNECTION_STATE → Bool) (sendControlGrantedOk : Bool)
    (postConnectCb activateCb : Option (Client → Client × Bool))
    (rdp : Rdp) (client : Client) (flagOf : FinalizeFlags → Bool)
    (hflag : expectedFinalizeFlag rdp.state = some flagOf)
    (hnotset : flagOf (recvPdu rdp).1.finalize = false)
    (hsucc : state_run_success (recvPdu rdp).2 = true)
    (hpkl : rdp.state = CONNECTION_STATE.FINALIZATION_PERSISTENT_KEY_LIST →
      rdp.settings.BitmapCachePersistEnabled = true ∧
      rdp.finalize.deactivateReactivate = false) :
    peer_recv_callback_fin_active recvPdu transOk sendControlGrantedOk
        postConnectCb activateCb rdp client
      = some ⟨(recvPdu rdp).1, client, STATE_RUN_SUCCESS, true, [], []⟩ := by
  rcases hrp : recvPdu rdp with ⟨rdp₁, r⟩
  rw [hrp] at hnotset hsucc
  simp only at hnotset hsucc
  cases hst : rdp.state <;>
    rw [hst] at hflag <;> simp only [expectedFinalizeFlag] at hflag <;>
    (first | exact Option.noConfusion hflag | skip)
  case FINALIZATION_SYNC =>
    rw [Option.some.injEq] at hflag
    subst hflag
    simp [peer_recv_callback_fin_active, hst, hrp, hnotset, peer_unexpected_client_message]
  case FINALIZATION_COOPERATE =>
    rw [Option.some.injEq] at hflag
    subst hflag
    simp [peer_recv_callback_fin_active, hst, hrp, hnotset, peer_unexpected_client_message]
  case FINALIZATION_REQUEST_CONTROL =>
    rw [Option.some.injEq] at hflag
    subst hflag
    simp [peer_recv_callback_fin_active, hst, hrp, hnotset, peer_unexpected_client_message]
  case FINALIZATION_PERSISTENT_KEY_LIST =>
    rw [Option.some.injEq] at hflag
    subst hflag
    obtain ⟨hbc, hdr⟩ := hpkl hst
    simp [peer_recv_callback_fin_active, hst, hrp, hnotset, hbc, hdr,
      peer_unexpected_client_message]
  case FINALIZATION_FONT_LIST =>
    rw [Option.some.injEq] at hflag
    subst hflag
    simp [peer_recv_callback_fin_active, hst, hrp, hnotset, hsucc,
      peer_unexpected_client_message]

/-- Non-vacuity of `c3_missing_finalize_flag_tolerated`: a successfully
parsed PDU in FINALIZATION_SYNC that leaves the synchronize flag clear
produces a plain success with no transition. -/
theorem c3_missing_finalize_flag_tolerated_witness :
    peer_recv_callback_fin_active (fun rdp => (rdp, STATE_RUN_SUCCESS)) (fun _ => true) true
        none none
        ⟨CONNECTION_STATE.FINALIZATION_SYNC, ⟨false, false, false, false, false, false⟩,
          ⟨true, true⟩⟩ ⟨true, true⟩
      = some ⟨⟨CONNECTION_STATE.FINALIZATION_SYNC,
          ⟨false, false, false, false, false, false⟩, ⟨true, true⟩⟩,
          ⟨true, true⟩, STATE_RUN_SUCCESS, true, [], []⟩ :=
  c3_missing_finalize_flag_tolerated (fun rdp => (rdp, STATE_RUN_SUCCESS)) (fun _ => true) true
    none none _ _ (fun fl => fl.synchronize) rfl rfl rfl (by intro h; cases h)

/-- C4: on entry to ACTIVE, `PostConnect` runs only when the peer is not
yet connected and its failure yields `STATE_RUN_FAILED`; on every entry
with `connected` set and `activated` clear, `activated` is set to `true`
before `Activate` is invoked, `Activate` runs (and `PostConnect` does
not), and an `Activate` failure yields `STATE_RUN_FAILED`; in the driver,
a handler failure propagates without a PDU receive while the steady-state
`STATE_RUN_ACTIVE` outcome triggers `peer_recv_pdu`. -/
theorem c4_postconnect_once_activate_each_entry (pc ac : Client → Client × Bool) (c : Client)
    (recvPdu : Rdp → Rdp × state_run_t) (transOk : CONNECTION_STATE → Bool)
    (sendControlGrantedOk : Bool) (rdp : Rdp)
    (hst : rdp.state = CONNECTION_STATE.ACTIVE) :
    (c.connected = false → (pc c).2 = false →
      rdp_peer_handle_state_active (some pc) (some ac) c
        = ({ (pc c).1 with connected := false }, STATE_RUN_FAILED, [AppCall.postConnect])) ∧
    (c.connected = true →
      AppCall.postConnect ∉ (rdp_peer_handle_state_active (some pc) (some ac) c).2.2) ∧
    (c.connected = true → c.activated = false →
      rdp_peer_handle_state_active (some pc) (some ac) c
        = ((ac { c with activated := true }).1,
           (if (ac { c with activated := true }).2 then STATE_RUN_SUCCESS
            else STATE_RUN_FAILED),
           [AppCall.activate])) ∧
    (c.connected = true → c.activated = true →
      rdp_peer_handle_state_active (some pc) (some ac) c
        = (c, STATE_RUN_ACTIVE, [])) ∧
    (∀ res, peer_recv_callback_fin_active recvPdu transOk sendControlGrantedOk
        (some pc) (some ac) rdp c = some res →
      ((rdp_peer_handle_state_active (some pc) (some ac) c).2.1 = STATE_RUN_FAILED →
        res.ret = STATE_RUN_FAILED ∧ res.consumedPdu = false) ∧
      ((rdp_peer_handle_state_active (some pc) (some ac) c).2.1 = STATE_RUN_ACTIVE →
        res.ret = (recvPdu rdp).2 ∧ res.consumedPdu = true)) := by
  refine ⟨?_, ?_, ?_, ?_, ?_⟩
  · intro hc hpc
    rcases hcc : pc c with ⟨c', r⟩
    rw [hcc] at hpc
    simp only at hpc
    subst hpc
    simp [rdp_peer_handle_state_active, hc, hcc]
  · intro hc
    obtain ⟨cc, ca⟩ := c
    simp only at hc
    subst hc
    cases ca <;>
      rcases hac : ac ⟨true, true⟩ with ⟨c₃, a⟩ <;>
      cases a <;>
      simp [rdp_peer_handle_state_active, hac]
  · intro hc hca
    obtain ⟨cc, ca⟩ := c
    simp only at hc hca
    subst hc
    subst hca
    rcases hac : ac ⟨true, true⟩ with ⟨c₃, a⟩
    cases a <;> simp [rdp_peer_handle_state_active, hac]
  · intro hc hca
    simp [rdp_peer_handle_state_active, hc, hca]
  · intro res hres
    rcases hrp : recvPdu rdp with ⟨rdp₁, r'⟩
    rcases hh : rdp_peer_handle_state_active (some pc) (some ac) c with ⟨c₁, hr, calls⟩
    simp only [peer_recv_callback_fin_active, hst, hh, hrp] at hres
    constructor
    · intro hfail
      simp only at hfail
      subst hfail
      rw [if_neg (by decide)] at hres
      simp only [Option.some.injEq] at hres
      subst hres
      exact ⟨rfl, rfl⟩
    · intro hactive
      simp only at hactive
      subst hactive
      rw [if_pos (by decide)] at hres
      simp only [Option.some.injEq] at hres
      subst hres
      exact ⟨rfl, rfl⟩

/-- Non-vacuity of `c4_postconnect_once_activate_each_entry`: on a
re-entry into ACTIVE with `connected` set and `activated` clear (a
reactivation), only `Activate` is invoked and the outcome is success. -/
theorem c4_postconnect_once_activate_each_entry_witness :
    rdp_peer_handle_state_active
        (some (fun c => (c, true))) (some (fun c => (c, true))) ⟨true, false⟩
      = (⟨true, true⟩, STATE_RUN_SUCCESS, [AppCall.activate]) ∧
    AppCall.postConnect ∉ (rdp_peer_handle_state_active
        (some (fun c => (c, true))) (some (fun c => (c, true))) ⟨true, false⟩).2.2 := by
  obtain ⟨-, h2, h3, -, -⟩ :=
    c4_postconnect_once_activate_each_entry (fun c => (c, true)) (fun c => (c, true))
      ⟨true, false⟩ (fun rdp => (rdp, STATE_RUN_SUCCESS)) (fun _ => true) true
      ⟨CONNECTION_STATE.ACTIVE, ⟨false, false, false, false, false, false⟩, ⟨true, true⟩⟩ rfl
  exact ⟨h3 rfl rfl, h2 rfl⟩

/-- C5: in FINALIZATION_PERSISTENT_KEY_LIST, when `BitmapCachePersistEnabled`
is false or the deactivate/reactivate flag is set, the driver transitions
straight to FINALIZATION_FONT_LIST with `STATE_RUN_CONTINUE` and does not
consume a PDU; otherwise it receives a PDU and advances to
FINALIZATION_FONT_LIST exactly when the persistent-key-list flag is set
afterwards. -/
theorem c5_persistent_key_list_skip_or_receive (recvPdu : Rdp → Rdp × state_run_t)
    (transOk : CONNECTION_STATE → Bool) (sendControlGrantedOk : Bool)
    (postConnectCb activateCb : Option (Client → Client × Bool))
    (rdp : Rdp) (client : Client)
    (hst : rdp.state = CONNECTION_STATE.FINALIZATION_PERSISTENT_KEY_LIST) :
    ((rdp.settings.BitmapCachePersistEnabled = false ∨
        rdp.finalize.deactivateReactivate = true) →
      transOk CONNECTION_STATE.FINALIZATION_FONT_LIST = true →
      peer_recv_callback_fin_active recvPdu transOk sendControlGrantedOk
          postConnectCb activateCb rdp client
        = some ⟨{ rdp with state := CONNECTION_STATE.FINALIZATION_FONT_LIST }, client,
            STATE_RUN_CONTINUE, false, [], []⟩) ∧
    (rdp.settings.BitmapCachePersistEnabled = true →
      rdp.finalize.deactivateReactivate = false →
      ((recvPdu rdp).1.finalize.persistentKeyList = true →
        transOk CONNECTION_STATE.FINALIZATION_FONT_LIST = true →
        peer_recv_callback_fin_active recvPdu transOk sendControlGrantedOk
            postConnectCb activateCb rdp client
          = some ⟨{ (recvPdu rdp).1 with state := CONNECTION_STATE.FINALIZATION_FONT_LIST },
              client, (recvPdu rdp).2, true, [], []⟩) ∧
      ((recvPdu rdp).1.finalize.persistentKeyList = false →
        peer_recv_callback_fin_active recvPdu transOk sendControlGrantedOk
            postConnectCb activateCb rdp client
          = some ⟨(recvPdu rdp).1, client, STATE_RUN_SUCCESS, true, [], []⟩)) := by
  obtain ⟨st, ⟨f1, f2, f3, f4, f5, f6⟩, ⟨bc, sei⟩⟩ := rdp
  simp only at hst
  subst hst
  constructor
  · intro hskip htr
    rcases hskip with h | h <;> simp only at h <;> subst h <;>
      simp [peer_recv_callback_fin_active, rdp_server_transition_to_state, htr]
  · intro hbc hdr
    simp only at hbc hdr
    subst hbc
    subst hdr
    rcases hrp : recvPdu ⟨CONNECTION_STATE.FINALIZATION_PERSISTENT_KEY_LIST,
        ⟨f1, f2, f3, f4, f5, false⟩, ⟨true, sei⟩⟩ with ⟨rdp₁, r⟩
    constructor
    · intro hflag htr
      simp only at hflag
      simp [peer_recv_callback_fin_active, hrp, hflag,
        rdp_server_transition_to_state, htr]
    · intro hflag
      simp only at hflag
      simp [peer_recv_callback_fin_active, hrp, hflag,
        peer_unexpected_client_message]

/-- Non-vacuity of `c5_persistent_key_list_skip_or_receive`: with
persistent bitmap caching disabled the driver skips straight to
FINALIZATION_FONT_LIST with `STATE_RUN_CONTINUE` and no PDU consumed. -/
theorem c5_persistent_key_list_skip_or_receive_witness :
    peer_recv_callback_fin_active (fun rdp => (rdp, STATE_RUN_SUCCESS)) (fun _ => true) true
        none none
        ⟨CONNECTION_STATE.FINALIZATION_PERSISTENT_KEY_LIST,
          ⟨false, false, false, false, false, false⟩, ⟨false, true⟩⟩ ⟨true, true⟩
      = some ⟨⟨CONNECTION_STATE.FINALIZATION_FONT_LIST,
          ⟨false, false, false, false, false, false⟩, ⟨false, true⟩⟩,
          ⟨true, true⟩, STATE_RUN_CONTINUE, false, [], []⟩ := by
  obtain ⟨h1, -⟩ :=
    c5_persistent_key_list_skip_or_receive (fun rdp => (rdp, STATE_RUN_SUCCESS)) (fun _ => true)
      true none none
      ⟨CONNECTION_STATE.FINALIZATION_PERSISTENT_KEY_LIST,
        ⟨false, false, false, false, false, false⟩, ⟨false, true⟩⟩ ⟨true, true⟩ rfl
  exact h1 (Or.inl rfl) rfl

/-- C7: when the negotiated protocol carries `PROTOCOL_FAILED_NEGO`,
`Close` returns success without sending anything; otherwise (with the
Deactivate-All send succeeding) it sends Deactivate-All, then an
error-info PDU iff `SupportErrorInfoPdu` is set, then an MCS
disconnect-provider-ultimatum with reason provider-initiated, in that
order. -/
theorem c7_close_failed_nego_silent_else_sequence (selectedProtocol : Nat)
    (supportErrorInfoPdu deactivateAllOk ultimatumOk : Bool) :
    (selectedProtocol &&& PROTOCOL_FAILED_NEGO ≠ 0 →
      freerdp_peer_close selectedProtocol supportErrorInfoPdu deactivateAllOk ultimatumOk
        = (true, [])) ∧
    (selectedProtocol &&& PROTOCOL_FAILED_NEGO = 0 → deactivateAllOk = true →
      freerdp_peer_close selectedProtocol supportErrorInfoPdu deactivateAllOk ultimatumOk
        = (ultimatumOk,
            [WireMsg.deactivateAll]
              ++ (if supportErrorInfoPdu then [WireMsg.errorInfo] else [])
              ++ [WireMsg.mcsDisconnectProviderUltimatum
                    DisconnectReason.providerInitiated])) ∧
    (selectedProtocol &&& PROTOCOL_FAILED_NEGO = 0 → deactivateAllOk = false →
      freerdp_peer_close selectedProtocol supportErrorInfoPdu deactivateAllOk ultimatumOk
        = (false, [WireMsg.deactivateAll])) := by
  refine ⟨?_, ?_, ?_⟩
  · intro h
    simp [freerdp_peer_close, h]
  · intro h hd
    simp [freerdp_peer_close, h, hd]
  · intro h hd
    simp [freerdp_peer_close, h, hd]

/-- Non-vacuity of `c7_close_failed_nego_silent_else_sequence`: a normal
close with `SupportErrorInfoPdu` set sends the three PDUs in order, and a
failed-negotiation close sends nothing. -/
theorem c7_close_failed_nego_silent_else_sequence_witness :
    freerdp_peer_close 1 true true true
      = (true, [WireMsg.deactivateAll, WireMsg.errorInfo,
          WireMsg.mcsDisconnectProviderUltimatum DisconnectReason.providerInitiated]) ∧
    freerdp_peer_close 0x80000001 true true true = (true, []) := by
  obtain ⟨-, h2, -⟩ := c7_close_failed_nego_silent_else_sequence 1 true true true
  obtain ⟨h1', -, -⟩ := c7_close_failed_nego_silent_else_sequence 0x80000001 true true true
  refine ⟨?_, h1' (by decide)⟩
  rw [h2 (by decide) rfl]
  decide

theorem countName_cons (n : String) (p : WINPR_NAMED_PIPE) (t : List WINPR_NAMED_PIPE) :
    countName n (p :: t)
      = if p.name == n then countName n t + 1 else countName n t := by
  simp only [countName, List.filter_cons]
  split <;> simp

theorem countName_perm {n : String} {l l' : List WINPR_NAMED_PIPE} (h : l.Perm l') :
    countName n l = countName n l' :=
  (h.filter _).length_eq

theorem countName_erase_of_mem (n : String) (p : WINPR_NAMED_PIPE)
    (l : List WINPR_NAMED_PIPE) (hp : p ∈ l) :
    countName n (l.erase p)
      = if p.name == n then countName n l - 1 else countName n l := by
  have hperm := List.perm_cons_erase hp
  have h1 : countName n l = countName n (p :: l.erase p) := countName_perm hperm
  rw [h1, countName_cons]
  split <;> simp

theorem countName_pos_of_mem {n : String} {p : WINPR_NAMED_PIPE}
    {l : List WINPR_NAMED_PIPE} (hp : p ∈ l) (hn : p.name = n) :
    0 < countName n l := by
  have : p ∈ l.filter (fun q => q.name == n) := by
    rw [List.mem_filter]
    exact ⟨hp, by simp [hn]⟩
  have := List.length_pos.mpr (List.ne_nil_of_mem this)
  simpa [countName] using this

/-- In a registry with pairwise-distinct names, `find?` returns the
member entry with the sought name. -/
theorem registry_find?_of_mem (reg : List NamedPipeServerSocketEntry)
    (hnd : reg.Pairwise (fun a b => a.name ≠ b.name))
    (e : NamedPipeServerSocketEntry) (he : e ∈ reg) :
    reg.find? (fun x => x.name == e.name) = some e := by
  induction reg with
  | nil => cases he
  | cons a t ih =>
    rcases List.mem_cons.mp he with rfl | ht
    · rw [List.find?_cons_of_pos]
      simp
    · have hne : a.name ≠ e.name := (List.pairwise_cons.mp hnd).1 e ht
      rw [List.find?_cons_of_neg]
      · exact ih (List.pairwise_cons.mp hnd).2 ht
      · simp [hne]

theorem bumpRef_of_not_mem (name : String) (reg : List NamedPipeServerSocketEntry)
    (h : ∀ e ∈ reg, e.name ≠ name) : bumpRef name reg = reg := by
  unfold bumpRef
  rw [List.map_congr_left, List.map_id]
  intro e he
  simp [h e he]

theorem bump_name (name : String) (e : NamedPipeServerSocketEntry) :
    (if e.name == name then
      (⟨e.name, e.serverfd, e.references + 1⟩ : NamedPipeServerSocketEntry)
     else e).name = e.name := by
  split <;> rfl

theorem bump_serverfd (name : String) (e : NamedPipeServerSocketEntry) :
    (if e.name == name then
      (⟨e.name, e.serverfd, e.references + 1⟩ : NamedPipeServerSocketEntry)
     else e).serverfd = e.serverfd := by
  split <;> rfl

theorem bumpRef_map_serverfd (name : String) (reg : List NamedPipeServerSocketEntry) :
    (bumpRef name reg).map (fun e => e.serverfd) = reg.map (fun e => e.serverfd) := by
  unfold bumpRef
  rw [List.map_map]
  exact List.map_congr_left (fun e _ => bump_serverfd name e)

theorem bumpRef_pairwise_names (name : String) (reg : List NamedPipeServerSocketEntry)
    (h : reg.Pairwise (fun a b => a.name ≠ b.name)) :
    (bumpRef name reg).Pairwise (fun a b => a.name ≠ b.name) := by
  unfold bumpRef
  rw [List.pairwise_map]
  refine h.imp ?_
  intro a b hab
  rw [bump_name, bump_name]
  exact hab

theorem nodup_insert_fresh {l₁ l₂ : List Nat} {x : Nat} (h : (l₁ ++ l₂).Nodup)
    (hx : x ∉ l₁ ++ l₂) : (l₁ ++ x :: l₂).Nodup := by
  have hperm : (l₁ ++ x :: l₂).Perm (x :: (l₁ ++ l₂)) := List.perm_middle
  exact hperm.nodup_iff.mpr (List.nodup_cons.mpr ⟨hx, h⟩)

theorem CreateNamedPipeA_found (s : PipeSys) (name : String)
    (e₀ : NamedPipeServerSocketEntry)
    (hf : s.registry.find? (fun e => e.name == name) = some e₀) :
    CreateNamedPipeA s name =
      (⟨bumpRef name s.registry, ⟨name, s.nextFd⟩ :: s.pipes,
        s.nextFd :: s.openFds, s.nextFd + 1⟩, ⟨name, s.nextFd⟩) := by
  simp [CreateNamedPipeA, hf, allocFd]

theorem CreateNamedPipeA_new (s : PipeSys) (name : String)
    (hf : s.registry.find? (fun e => e.name == name) = none) :
    CreateNamedPipeA s name =
      (⟨s.registry ++ [⟨name, s.nextFd, 1⟩], ⟨name, s.nextFd + 1⟩ :: s.pipes,
        (s.nextFd + 1) :: s.nextFd :: s.openFds, s.nextFd + 2⟩, ⟨name, s.nextFd + 1⟩) := by
  have hnone : ∀ e ∈ s.registry, e.name ≠ name := by
    intro e he
    have := List.find?_eq_none.mp hf e he
    simpa using this
  have hb : bumpRef name (s.registry ++ [⟨name, s.nextFd, 0⟩])
      = s.registry ++ [⟨name, s.nextFd, 1⟩] := by
    have h1 := bumpRef_of_not_mem name s.registry hnone
    unfold bumpRef at h1 ⊢
    rw [List.map_append, h1]
    simp
  simp [CreateNamedPipeA, hf, allocFd, hb]

theorem CreateNamedPipeA_found_fst (s : PipeSys) (name : String)
    (e₀ : NamedPipeServerSocketEntry)
    (hf : s.registry.find? (fun e => e.name == name) = some e₀) :
    (CreateNamedPipeA s name).1 =
      ⟨bumpRef name s.registry, ⟨name, s.nextFd⟩ :: s.pipes,
        s.nextFd :: s.openFds, s.nextFd + 1⟩ := by
  rw [CreateNamedPipeA_found s name e₀ hf]

theorem CreateNamedPipeA_new_fst (s : PipeSys) (name : String)
    (hf : s.registry.find? (fun e => e.name == name) = none) :
    (CreateNamedPipeA s name).1 =
      ⟨s.registry ++ [⟨name, s.nextFd, 1⟩], ⟨name, s.nextFd + 1⟩ :: s.pipes,
        (s.nextFd + 1) :: s.nextFd :: s.openFds, s.nextFd + 2⟩ := by
  rw [CreateNamedPipeA_new s name hf]

/-- When a pipe name is absent from the registry, no live instance
carries it. -/
theorem no_pipe_of_find?_none (s : PipeSys) (name : String) (h : PipeInv s)
    (hf : s.registry.find? (fun e => e.name == name) = none) :
    countName name s.pipes = 0 := by
  have hnone : ∀ e ∈ s.registry, e.name ≠ name := by
    intro e he
    have := List.find?_eq_none.mp hf e he
    simpa using this
  have hnopipe : ∀ p ∈ s.pipes, p.name ≠ name := by
    intro p hp hpn
    obtain ⟨e, he, hen⟩ := h.liveEntry p hp
    exact hnone e he (hen.trans hpn)
  have : s.pipes.filter (fun p => p.name == name) = [] := by
    apply List.filter_eq_nil_iff.mpr
    intro p hp
    simp [hnopipe p hp]
  simp [countName, this]

theorem CreateNamedPipeA_preserves (s : PipeSys) (name : String) (h : PipeInv s) :
    PipeInv (CreateNamedPipeA s name).1 := by
  have hlt : ∀ fd ∈ sysFds s, fd < s.nextFd :=
    fun fd hfd => h.openLt fd (h.fdsOpen fd hfd)
  have hregfd : ∀ e ∈ s.registry, e.serverfd < s.nextFd := by
    intro e he
    apply hlt
    exact List.mem_append.mpr (Or.inl (List.mem_map.mpr ⟨e, he, rfl⟩))
  have hpipefd : ∀ p ∈ s.pipes, p.serverfd < s.nextFd := by
    intro p hp
    apply hlt
    exact List.mem_append.mpr (Or.inr (List.mem_map.mpr ⟨p, hp, rfl⟩))
  rcases hf : s.registry.find? (fun e => e.name == name) with _ | e₀
  · -- first instance: new base socket and entry
    rw [CreateNamedPipeA_new_fst s name hf]
    have hnone : ∀ e ∈ s.registry, e.name ≠ name := by
      intro e he
      have := List.find?_eq_none.mp hf e he
      simpa using this
    have hcount0 : countName name s.pipes = 0 := no_pipe_of_find?_none s name h hf
    refine ⟨?_, ?_, ?_, ?_, ?_, ?_, ?_, ?_⟩
    · rw [List.pairwise_append]
      refine ⟨h.namesNodup, by simp, ?_⟩
      intro a ha b hb
      simp only [List.mem_singleton] at hb
      subst hb
      simpa using hnone a ha
    · intro e he
      rcases List.mem_append.mp he with he | he
      · exact h.refsPos e he
      · simp only [List.mem_singleton] at he
        subst he
        simp
    · intro e he
      rcases List.mem_append.mp he with he | he
      · rw [countName_cons]
        rw [if_neg (by simpa using fun hx => hnone e he hx.symm)]
        exact h.refsCount e he
      · simp only [List.mem_singleton] at he
        subst he
        rw [countName_cons]
        simp [hcount0]
    · intro p hp
      rcases List.mem_cons.mp hp with rfl | hp
      · exact ⟨⟨name, s.nextFd, 1⟩, by simp, rfl⟩
      · obtain ⟨e, he, hen⟩ := h.liveEntry p hp
        exact ⟨e, List.mem_append_left _ he, hen⟩
    · simp only [sysFds, List.map_append, List.map_cons, List.map_nil]
      rw [List.append_assoc]
      simp only [List.singleton_append]
      apply nodup_insert_fresh
      · apply nodup_insert_fresh h.fdsNodup
        intro hmem
        rcases List.mem_append.mp hmem with hm | hm
        · obtain ⟨e, he, hfd⟩ := List.mem_map.mp hm
          have := hregfd e he
          omega
        · obtain ⟨p, hp, hfd⟩ := List.mem_map.mp hm
          have := hpipefd p hp
          omega
      · intro hmem
        rcases List.mem_append.mp hmem with hm | hm
        · obtain ⟨e, he, hfd⟩ := List.mem_map.mp hm
          have := hregfd e he
          omega
        · rcases List.mem_cons.mp hm with hm | hm
          · omega
          · obtain ⟨p, hp, hfd⟩ := List.mem_map.mp hm
            have := hpipefd p hp
            omega
    · intro fd hfd
      simp only [sysFds, List.map_append, List.map_cons, List.map_nil] at hfd
      simp only [List.mem_cons]
      rcases List.mem_append.mp hfd with hm | hm
      · rcases List.mem_append.mp hm with hm | hm
        · exact Or.inr (Or.inr (h.fdsOpen fd (List.mem_append.mpr (Or.inl hm))))
        · simp only [List.mem_singleton] at hm
          exact Or.inr (Or.inl hm)
      · rcases List.mem_cons.mp hm with hm | hm
        · exact Or.inl hm
        · exact Or.inr (Or.inr (h.fdsOpen fd (List.mem_append.mpr (Or.inr hm))))
    · refine List.nodup_cons.mpr ⟨?_, List.nodup_cons.mpr ⟨?_, h.openNodup⟩⟩
      · intro hmem
        rcases List.mem_cons.mp hmem with hm | hm
        · omega
        · have := h.openLt _ hm
          omega
      · intro hmem
        have := h.openLt _ hmem
        omega
    · intro fd hfd
      have hfd' : fd ∈ (s.nextFd + 1) :: s.nextFd :: s.openFds := hfd
      show fd < s.nextFd + 2
      rcases List.mem_cons.mp hfd' with rfl | hfd'
      · omega
      · rcases List.mem_cons.mp hfd' with rfl | hfd'
        · omega
        · have := h.openLt fd hfd'
          omega
  · -- later instance: reuse the base socket, bump the reference count
    rw [CreateNamedPipeA_found_fst s name e₀ hf]
    have he₀ : e₀ ∈ s.registry := List.mem_of_find?_eq_some hf
    have he₀n : e₀.name = name := by
      have := List.find?_some hf
      simpa using this
    refine ⟨?_, ?_, ?_, ?_, ?_, ?_, ?_, ?_⟩
    · exact bumpRef_pairwise_names name s.registry h.namesNodup
    · intro e he
      obtain ⟨e', he', rfl⟩ := List.mem_map.mp he
      have := h.refsPos e' he'
      split
      · simp
      · exact this
    · intro e he
      obtain ⟨e', he', rfl⟩ := List.mem_map.mp he
      rw [bump_name, countName_cons]
      by_cases hn : e'.name = name
      · have hb : (e'.name == name) = true := by simpa using hn
        have hb' : ((⟨name, s.nextFd⟩ : WINPR_NAMED_PIPE).name == e'.name) = true := by
          simpa using hn.symm
        simp [hb, hb', h.refsCount e' he']
      · have hb : (e'.name == name) = false := by simpa using hn
        have hb' : ((⟨name, s.nextFd⟩ : WINPR_NAMED_PIPE).name == e'.name) = false := by
          simpa using fun hx => hn hx.symm
        simp [hb, hb', h.refsCount e' he']
    · intro p hp
      rcases List.mem_cons.mp hp with rfl | hp
      · refine ⟨⟨e₀.name, e₀.serverfd, e₀.references + 1⟩, ?_, by simpa using he₀n⟩
        unfold bumpRef
        refine List.mem_map.mpr ⟨e₀, he₀, ?_⟩
        rw [if_pos (by simpa using he₀n)]
      · obtain ⟨e, he, hen⟩ := h.liveEntry p hp
        refine ⟨if e.name == name then ⟨e.name, e.serverfd, e.references + 1⟩ else e, ?_, ?_⟩
        · exact List.mem_map.mpr ⟨e, he, rfl⟩
        · rw [bump_name]
          exact hen
    · simp only [sysFds, bumpRef_map_serverfd, List.map_cons]
      apply nodup_insert_fresh h.fdsNodup
      intro hmem
      rcases List.mem_append.mp hmem with hm | hm
      · obtain ⟨e, he, hfd⟩ := List.mem_map.mp hm
        have := hregfd e he
        omega
      · obtain ⟨p, hp, hfd⟩ := List.mem_map.mp hm
        have := hpipefd p hp
        omega
    · intro fd hfd
      simp only [sysFds, bumpRef_map_serverfd, List.map_cons] at hfd
      simp only [List.mem_cons]
      rcases List.mem_append.mp hfd with hm | hm
      · exact Or.inr (h.fdsOpen fd (List.mem_append.mpr (Or.inl hm)))
      · rcases List.mem_cons.mp hm with rfl | hm
        · exact Or.inl rfl
        · exact Or.inr (h.fdsOpen fd (List.mem_append.mpr (Or.inr hm)))
    · refine List.nodup_cons.mpr ⟨?_, h.openNodup⟩
      intro hmem
      have := h.openLt _ hmem
      omega
    · intro fd hfd
      have hfd' : fd ∈ s.nextFd :: s.openFds := hfd
      show fd < s.nextFd + 1
      rcases List.mem_cons.mp hfd' with rfl | hfd'
      · omega
      · have := h.openLt fd hfd'
        omega

theorem dec_name (name : String) (e : NamedPipeServerSocketEntry) :
    (if e.name == name then
      (⟨e.name, e.serverfd, e.references - 1⟩ : NamedPipeServerSocketEntry)
     else e).name = e.name := by
  split <;> rfl

theorem dec_serverfd (name : String) (e : NamedPipeServerSocketEntry) :
    (if e.name == name then
      (⟨e.name, e.serverfd, e.references - 1⟩ : NamedPipeServerSocketEntry)
     else e).serverfd = e.serverfd := by
  split <;> rfl

theorem decRef_map_serverfd (name : String) (reg : List NamedPipeServerSocketEntry) :
    (reg.map (fun x =>
      if x.name == name then ⟨x.name, x.serverfd, x.references - 1⟩ else x)).map
        (fun e => e.serverfd) = reg.map (fun e => e.serverfd) := by
  rw [List.map_map]
  exact List.map_congr_left (fun e _ => dec_serverfd name e)

theorem decRef_pairwise_names (name : String) (reg : List NamedPipeServerSocketEntry)
    (h : reg.Pairwise (fun a b => a.name ≠ b.name)) :
    (reg.map (fun x =>
      if x.name == name then ⟨x.name, x.serverfd, x.references - 1⟩ else x)).Pairwise
        (fun a b => a.name ≠ b.name) := by
  rw [List.pairwise_map]
  refine h.imp ?_
  intro a b hab
  rw [dec_name, dec_name]
  exact hab

theorem NamedPipeCloseHandle_preserves (s : PipeSys) (p : WINPR_NAMED_PIPE)
    (h : PipeInv s) : PipeInv (NamedPipeCloseHandle s p) := by
  by_cases hp : p ∈ s.pipes
  case neg => simpa [NamedPipeCloseHandle, hp] using h
  -- p is live: the registry has its entry
  obtain ⟨e, he, hen⟩ := h.liveEntry p hp
  have hfind : s.registry.find? (fun x => x.name == p.name) = some e := by
    have := registry_find?_of_mem s.registry h.namesNodup e he
    rw [hen] at this
    exact this
  have hrefs : e.references = countName p.name s.pipes := by
    have := h.refsCount e he
    rwa [hen] at this
  have hcountpos : 0 < countName p.name s.pipes := countName_pos_of_mem hp rfl
  -- registry and pipe fds: nodup pieces and disjointness
  have hnodups := h.fdsNodup
  rw [sysFds, List.nodup_append] at hnodups
  obtain ⟨hregFd, hpipeFd, hdisjFd⟩ := hnodups
  have hpipesNodup : s.pipes.Nodup := hpipeFd.of_map
  have hinjReg : ∀ e₁ ∈ s.registry, ∀ e₂ ∈ s.registry,
      e₁.serverfd = e₂.serverfd → e₁ = e₂ := by
    intro e₁ h₁ e₂ h₂ hfd
    exact List.inj_on_of_nodup_map hregFd h₁ h₂ hfd
  have hinjPipes : ∀ q₁ ∈ s.pipes, ∀ q₂ ∈ s.pipes,
      q₁.serverfd = q₂.serverfd → q₁ = q₂ := by
    intro q₁ h₁ q₂ h₂ hfd
    exact List.inj_on_of_nodup_map hpipeFd h₁ h₂ hfd
  have hcount_erase : countName p.name (s.pipes.erase p)
      = countName p.name s.pipes - 1 := by
    rw [countName_erase_of_mem p.name p s.pipes hp, if_pos (by simp)]
  have herase_sub : (s.pipes.erase p).Sublist s.pipes := List.erase_sublist p s.pipes
  by_cases hone : e.references - 1 = 0
  case pos =>
    -- last instance: the entry goes away and the base fd is closed
    have hstep : NamedPipeCloseHandle s p =
        ⟨s.registry.filter (fun x => ¬x.name == p.name), s.pipes.erase p,
          (s.openFds.erase e.serverfd).erase p.serverfd, s.nextFd⟩ := by
      simp [NamedPipeCloseHandle, hp, winpr_unref_named_pipe, hfind, hone]
    rw [hstep]
    have hcount1 : countName p.name s.pipes = 1 := by omega
    have hcount0 : countName p.name (s.pipes.erase p) = 0 := by omega
    have hmem_filter : ∀ e' ∈ s.registry.filter (fun x => ¬x.name == p.name),
        e' ∈ s.registry ∧ e'.name ≠ p.name := by
      intro e' he'
      have := List.mem_filter.mp he'
      refine ⟨this.1, ?_⟩
      simpa using this.2
    have hno_name_erase : ∀ q ∈ s.pipes.erase p, q.name ≠ p.name := by
      intro q hq hqn
      have : 0 < countName p.name (s.pipes.erase p) :=
        countName_pos_of_mem hq hqn
      omega
    refine ⟨?_, ?_, ?_, ?_, ?_, ?_, ?_, ?_⟩
    · exact h.namesNodup.sublist (List.filter_sublist _)
    · intro e' he'
      exact h.refsPos e' (hmem_filter e' he').1
    · intro e' he'
      obtain ⟨hmem, hne⟩ := hmem_filter e' he'
      rw [countName_erase_of_mem e'.name p s.pipes hp,
        if_neg (by simpa using fun hx => hne hx.symm)]
      exact h.refsCount e' hmem
    · intro q hq
      have hqmem : q ∈ s.pipes := herase_sub.subset hq
      obtain ⟨e', he', hqn⟩ := h.liveEntry q hqmem
      refine ⟨e', List.mem_filter.mpr ⟨he', ?_⟩, hqn⟩
      have : e'.name ≠ p.name := by
        intro hx
        exact hno_name_erase q hq (hqn.symm.trans hx)
      simpa using this
    · refine List.Nodup.sublist ?_ h.fdsNodup
      exact List.Sublist.append
        (List.Sublist.map _ (List.filter_sublist _))
        (List.Sublist.map _ herase_sub)
    · intro fd hfd
      rcases List.mem_append.mp hfd with hm | hm
      · obtain ⟨e', he', rfl⟩ := List.mem_map.mp hm
        obtain ⟨hmem, hne⟩ := hmem_filter e' he'
        have hopen : e'.serverfd ∈ s.openFds :=
          h.fdsOpen _ (List.mem_append.mpr (Or.inl (List.mem_map.mpr ⟨e', hmem, rfl⟩)))
        have hne_base : e'.serverfd ≠ e.serverfd := by
          intro hx
          exact hne (by rw [hinjReg e' hmem e he hx, hen])
        have hne_pipe : e'.serverfd ≠ p.serverfd := by
          intro hx
          exact hdisjFd (List.mem_map.mpr ⟨e', hmem, rfl⟩)
            (by rw [hx]; exact List.mem_map.mpr ⟨p, hp, rfl⟩)
        rw [List.Nodup.mem_erase_iff (h.openNodup.erase _),
          List.Nodup.mem_erase_iff h.openNodup]
        exact ⟨hne_pipe, hne_base, hopen⟩
      · obtain ⟨q, hq, rfl⟩ := List.mem_map.mp hm
        have hqmem : q ∈ s.pipes := herase_sub.subset hq
        have hopen : q.serverfd ∈ s.openFds :=
          h.fdsOpen _ (List.mem_append.mpr (Or.inr (List.mem_map.mpr ⟨q, hqmem, rfl⟩)))
        have hqne : q ≠ p := (List.Nodup.mem_erase_iff hpipesNodup).mp hq |>.1
        have hne_pipe : q.serverfd ≠ p.serverfd := by
          intro hx
          exact hqne (hinjPipes q hqmem p hp hx)
        have hne_base : q.serverfd ≠ e.serverfd := by
          intro hx
          exact hdisjFd (List.mem_map.mpr ⟨e, he, rfl⟩)
            (by rw [← hx]; exact List.mem_map.mpr ⟨q, hqmem, rfl⟩)
        rw [List.Nodup.mem_erase_iff (h.openNodup.erase _),
          List.Nodup.mem_erase_iff h.openNodup]
        exact ⟨hne_pipe, hne_base, hopen⟩
    · exact (h.openNodup.erase _).erase _
    · intro fd hfd
      have h₁ : fd ∈ s.openFds.erase e.serverfd := (List.erase_sublist _ _).subset hfd
      have h₂ : fd ∈ s.openFds := (List.erase_sublist _ _).subset h₁
      exact h.openLt fd h₂
  case neg =>
    -- other instances remain: only the reference count drops
    have hstep : NamedPipeCloseHandle s p =
        ⟨s.registry.map (fun x =>
            if x.name == p.name then ⟨x.name, x.serverfd, x.references - 1⟩ else x),
          s.pipes.erase p, s.openFds.erase p.serverfd, s.nextFd⟩ := by
      simp [NamedPipeCloseHandle, hp, winpr_unref_named_pipe, hfind, hone]
    rw [hstep]
    refine ⟨?_, ?_, ?_, ?_, ?_, ?_, ?_, ?_⟩
    · exact decRef_pairwise_names p.name s.registry h.namesNodup
    · intro e' he'
      obtain ⟨e'', he'', rfl⟩ := List.mem_map.mp he'
      by_cases hn : e''.name = p.name
      · have hb : (e''.name == p.name) = true := by simpa using hn
        have he''e : e'' = e := by
          rcases (List.pairwise_iff_forall_sublist.mp h.namesNodup) with -
          by_contra hne
          -- two distinct entries with the same name contradict uniqueness
          have := h.namesNodup
          rw [List.pairwise_iff_get] at this
          obtain ⟨i, hi⟩ := List.mem_iff_get.mp he''
          obtain ⟨j, hj⟩ := List.mem_iff_get.mp he
          have hij : i ≠ j := by
            intro hx
            exact hne (by rw [← hi, ← hj, hx])
          rcases Nat.lt_or_ge i.1 j.1 with hlt | hge
          · have := this i j (by omega)
            rw [hi, hj] at this
            exact this (hn.trans hen.symm)
          · have hlt' : j.1 < i.1 := by
              rcases Nat.eq_or_lt_of_le hge with hx | hx
              · exact absurd (Fin.ext hx.symm) hij
              · exact hx
            have := this j i (by omega)
            rw [hi, hj] at this
            exact this (hen.trans hn.symm)
        subst he''e
        have : 2 ≤ e''.references := by omega
        simp only [hb, if_true]
        omega
      · have hb : (e''.name == p.name) = false := by simpa using hn
        simp only [hb, if_false]
        exact h.refsPos e'' he''
    · intro e' he'
      obtain ⟨e'', he'', rfl⟩ := List.mem_map.mp he'
      rw [dec_name]
      by_cases hn : e''.name = p.name
      · have hb : (e''.name == p.name) = true := by simpa using hn
        have hcnt : countName e''.name (s.pipes.erase p) = countName e''.name s.pipes - 1 := by
          rw [hn]
          exact hcount_erase
        simp only [hb, if_true]
        rw [hcnt, ← h.refsCount e'' he'']
      · have hb : (e''.name == p.name) = false := by simpa using hn
        have hcnt : countName e''.name (s.pipes.erase p) = countName e''.name s.pipes := by
          rw [countName_erase_of_mem e''.name p s.pipes hp,
            if_neg (by simpa using fun hx => hn hx.symm)]
        simp only [hb, if_false]
        rw [hcnt]
        exact h.refsCount e'' he''
    · intro q hq
      have hqmem : q ∈ s.pipes := herase_sub.subset hq
      obtain ⟨e', he', hqn⟩ := h.liveEntry q hqmem
      refine ⟨if e'.name == p.name then ⟨e'.name, e'.serverfd, e'.references - 1⟩ else e',
        List.mem_map.mpr ⟨e', he', rfl⟩, ?_⟩
      rw [dec_name]
      exact hqn
    · rw [sysFds]
      simp only [decRef_map_serverfd]
      refine List.Nodup.sublist ?_ h.fdsNodup
      exact List.Sublist.append (List.Sublist.refl _) (List.Sublist.map _ herase_sub)
    · intro fd hfd
      rw [sysFds] at hfd
      simp only [decRef_map_serverfd] at hfd
      rcases List.mem_append.mp hfd with hm | hm
      · obtain ⟨e', he', rfl⟩ := List.mem_map.mp hm
        have hopen : e'.serverfd ∈ s.openFds :=
          h.fdsOpen _ (List.mem_append.mpr (Or.inl (List.mem_map.mpr ⟨e', he', rfl⟩)))
        have hne_pipe : e'.serverfd ≠ p.serverfd := by
          intro hx
          exact hdisjFd (List.mem_map.mpr ⟨e', he', rfl⟩)
            (by rw [hx]; exact List.mem_map.mpr ⟨p, hp, rfl⟩)
        rw [List.Nodup.mem_erase_iff h.openNodup]
        exact ⟨hne_pipe, hopen⟩
      · obtain ⟨q, hq, rfl⟩ := List.mem_map.mp hm
        have hqmem : q ∈ s.pipes := herase_sub.subset hq
        have hopen : q.serverfd ∈ s.openFds :=
          h.fdsOpen _ (List.mem_append.mpr (Or.inr (List.mem_map.mpr ⟨q, hqmem, rfl⟩)))
        have hqne : q ≠ p := (List.Nodup.mem_erase_iff hpipesNodup).mp hq |>.1
        have hne_pipe : q.serverfd ≠ p.serverfd := by
          intro hx
          exact hqne (hinjPipes q hqmem p hp hx)
        rw [List.Nodup.mem_erase_iff h.openNodup]
        exact ⟨hne_pipe, hopen⟩
    · exact h.openNodup.erase _
    · intro fd hfd
      exact h.openLt fd ((List.erase_sublist _ _).subset hfd)

theorem initPipeSys_inv : PipeInv initPipeSys := by
  refine ⟨?_, ?_, ?_, ?_, ?_, ?_, ?_, ?_⟩ <;> simp [initPipeSys, sysFds]

theorem runPipeOps_preserves (ops : List PipeOp) :
    ∀ s : PipeSys, PipeInv s → PipeInv (runPipeOps ops s) := by
  induction ops with
  | nil => intro s h; exact h
  | cons op ops ih =>
    intro s h
    cases op with
    | create name => exact ih _ (CreateNamedPipeA_preserves s name h)
    | closeHandle p => exact ih _ (NamedPipeCloseHandle_preserves s p h)

/-- In a registry with pairwise-distinct names, filtering for a member's
name yields exactly that entry. -/
theorem registry_filter_of_mem (reg : List NamedPipeServerSocketEntry)
    (hnd : reg.Pairwise (fun a b => a.name ≠ b.name))
    (e : NamedPipeServerSocketEntry) (he : e ∈ reg) :
    reg.filter (fun x => x.name == e.name) = [e] := by
  induction reg with
  | nil => cases he
  | cons a t ih =>
    rcases List.mem_cons.mp he with rfl | ht
    · rw [List.filter_cons_of_pos (by simp)]
      have : t.filter (fun x => x.name == e.name) = [] := by
        apply List.filter_eq_nil_iff.mpr
        intro x hx
        have := (List.pairwise_cons.mp hnd).1 x hx
        simpa using fun hxx => this hxx.symm
      rw [this]
    · have hne : a.name ≠ e.name := (List.pairwise_cons.mp hnd).1 e ht
      rw [List.filter_cons_of_neg (by simpa using hne)]
      exact ih (List.pairwise_cons.mp hnd).2 ht

/-- C8: starting from an empty registry, any interleaving of
`CreateNamedPipeA` and `NamedPipeCloseHandle` calls maintains the
registry invariant; under the invariant, a name with `k > 0` live
instances has exactly one registry entry and its `references` equals `k`;
every `CreateNamedPipeA` hands the instance a freshly `dup()`ed
descriptor distinct from every base descriptor; and closing the last
instance of a name removes its entry and closes the base descriptor. -/
theorem c8_shared_socket_registry :
    (∀ ops : List PipeOp, PipeInv (runPipeOps ops initPipeSys)) ∧
    (∀ (s : PipeSys) (name : String), PipeInv s → 0 < countName name s.pipes →
      ∃ e, s.registry.filter (fun x => x.name == name) = [e] ∧
        e.references = countName name s.pipes) ∧
    (∀ (s : PipeSys) (name : String), PipeInv s →
      (CreateNamedPipeA s name).2 ∈ (CreateNamedPipeA s name).1.pipes ∧
      ∀ e ∈ (CreateNamedPipeA s name).1.registry,
        (CreateNamedPipeA s name).2.serverfd ≠ e.serverfd) ∧
    (∀ (s : PipeSys) (p : WINPR_NAMED_PIPE) (e : NamedPipeServerSocketEntry),
      PipeInv s → p ∈ s.pipes → e ∈ s.registry → e.name = p.name →
      countName p.name s.pipes = 1 →
      (∀ e' ∈ (NamedPipeCloseHandle s p).registry, e'.name ≠ p.name) ∧
      e.serverfd ∉ (NamedPipeCloseHandle s p).openFds ∧
      countName p.name (NamedPipeCloseHandle s p).pipes = 0) := by
  refine ⟨?_, ?_, ?_, ?_⟩
  · intro ops
    exact runPipeOps_preserves ops initPipeSys initPipeSys_inv
  · intro s name h hpos
    have : ∃ q, q ∈ s.pipes.filter (fun p => p.name == name) := by
      apply List.exists_mem_of_length_pos
      simpa [countName] using hpos
    obtain ⟨q, hq⟩ := this
    obtain ⟨hqmem, hqname⟩ := List.mem_filter.mp hq
    have hqname' : q.name = name := by simpa using hqname
    obtain ⟨e, he, hen⟩ := h.liveEntry q hqmem
    have hename : e.name = name := hen.trans hqname'
    refine ⟨e, ?_, ?_⟩
    · have := registry_filter_of_mem s.registry h.namesNodup e he
      rwa [hename] at this
    · rw [h.refsCount e he, hename]
  · intro s name h
    have hlt : ∀ fd ∈ sysFds s, fd < s.nextFd :=
      fun fd hfd => h.openLt fd (h.fdsOpen fd hfd)
    have hregfd : ∀ e ∈ s.registry, e.serverfd < s.nextFd := by
      intro e he
      apply hlt
      exact List.mem_append.mpr (Or.inl (List.mem_map.mpr ⟨e, he, rfl⟩))
    rcases hf : s.registry.find? (fun e => e.name == name) with _ | e₀
    · rw [CreateNamedPipeA_new s name hf]
      refine ⟨by simp, ?_⟩
      intro e he
      simp only at he ⊢
      rcases List.mem_append.mp he with hm | hm
      · have := hregfd e hm
        omega
      · simp only [List.mem_singleton] at hm
        subst hm
        simp
    · rw [CreateNamedPipeA_found s name e₀ hf]
      refine ⟨by simp, ?_⟩
      intro e he
      simp only at he ⊢
      obtain ⟨e', he', rfl⟩ := List.mem_map.mp he
      rw [bump_serverfd]
      have := hregfd e' he'
      omega
  · intro s p e h hp he hen hcount
    have hfind : s.registry.find? (fun x => x.name == p.name) = some e := by
      have := registry_find?_of_mem s.registry h.namesNodup e he
      rw [hen] at this
      exact this
    have hrefs : e.references = 1 := by
      have := h.refsCount e he
      rw [hen, hcount] at this
      exact this
    have hone : e.references - 1 = 0 := by omega
    have hstep : NamedPipeCloseHandle s p =
        ⟨s.registry.filter (fun x => ¬x.name == p.name), s.pipes.erase p,
          (s.openFds.erase e.serverfd).erase p.serverfd, s.nextFd⟩ := by
      simp [NamedPipeCloseHandle, hp, winpr_unref_named_pipe, hfind, hone]
    rw [hstep]
    refine ⟨?_, ?_, ?_⟩
    · intro e' he'
      have := List.mem_filter.mp he'
      simpa using this.2
    · intro hmem
      have h₁ : e.serverfd ∈ s.openFds.erase e.serverfd :=
        (List.erase_sublist _ _).subset hmem
      exact (h.openNodup.not_mem_erase) h₁
    · rw [countName_erase_of_mem p.name p s.pipes hp, if_pos (by simp)]
      omega

/-- Non-vacuity of `c8_shared_socket_registry`: after two creates of the
same name the registry holds one entry with two references; the second
part is applied at that concrete state. -/
theorem c8_shared_socket_registry_witness :
    ∃ e, (runPipeOps [PipeOp.create "a", PipeOp.create "a"] initPipeSys).registry.filter
        (fun x => x.name == "a") = [e] ∧
      e.references
        = countName "a" (runPipeOps [PipeOp.create "a", PipeOp.create "a"] initPipeSys).pipes := by
  obtain ⟨hinv, huniq, -, -⟩ := c8_shared_socket_registry
  exact huniq _ "a" (hinv [PipeOp.create "a", PipeOp.create "a"]) (by decide)

end FreeRDP
